import Mathlib

/-!
Shallow embedding of the VSCode-Light-Bookmarks core: the `Bookmark` and
`Collection` entities, the `BookmarkManager` and `CollectionManager`
services, the document-change reconciliation algorithm, and the
export/import reconciliation commands.

Modelling conventions:
- JavaScript strings are Lean `String`s; the character-level helpers below
  replace `String.split`/`includes`/`startsWith` so that every definition
  evaluates by kernel reduction.
- `uuidv4()` and `new Date()` draws are modelled by a single fresh counter
  `ManagerState.fresh`: each entity construction consumes one tick, which
  gives unique ids and monotone `createdAt` timestamps.
- `Array.prototype.sort` is stable and ascending for the numeric
  comparators used by the code; it is modelled by `List.insertionSort`,
  which is stable in the same sense.
- The VSCode configuration read (`maxBookmarksPerFile`) and the first
  workspace folder uri are modelled by the read-only environment `Env`.
- In-place object mutation (the order swap / renormalisation loops and the
  `Object.defineProperty` overrides) is modelled by rebuilding the state
  lists, locating the mutated entity by its identity key (collection `id`,
  bookmark `(uri, line)`).
-/

namespace LightBookmarks

/-- Splits a character list on a separator character; models
`String.prototype.split` with a one-character separator. -/
def splitChar (sep : Char) : List Char → List (List Char)
  | [] => [[]]
  | c :: cs =>
    let r := splitChar sep cs
    if c = sep then [] :: r
    else
      match r with
      | [] => [[c]]
      | h :: t => (c :: h) :: t

/-- Finds the first occurrence of the scheme separator `://` and returns the
text before and after it; models `s.includes('://')` and `s.split('://')`
as used by the code (only the first occurrence matters there). -/
def breakScheme : List Char → Option (List Char × List Char)
  | [] => none
  | c :: cs =>
    if c = ':' ∧ cs.take 2 = ['/', '/'] then some ([], cs.drop 2)
    else (breakScheme cs).map (fun p => (c :: p.1, p.2))

/-- True when the string contains the substring `://`. -/
def containsScheme (s : String) : Bool :=
  (breakScheme s.toList).isSome

/-- Minimal model of a parsed `vscode.Uri`: scheme, authority and path. -/
structure Uri where
  scheme : String
  authority : String
  path : String
deriving DecidableEq, Repr

/-- Models `vscode.Uri.parse` on `scheme://authority/path` strings: the
scheme is the text before the first `://`, the authority runs to the next
`/`, the path is the rest (with its leading slash). -/
def parseUri (s : String) : Uri :=
  match breakScheme s.toList with
  | none => { scheme := "", authority := "", path := s }
  | some (sch, rest) =>
    match splitChar '/' rest with
    | [] => { scheme := String.mk sch, authority := "", path := "" }
    | a :: ps =>
      { scheme := String.mk sch, authority := String.mk a,
        path := if ps.isEmpty then "" else String.mk ('/' :: List.intercalate ['/'] ps) }

/-- Models `vscode.Uri.toString()` for the simple uris the code builds. -/
def uriToString (u : Uri) : String :=
  u.scheme ++ "://" ++ u.authority ++ u.path

/-- The bookmark entity (`src/models/Bookmark.ts`). `id` and `createdAt`
are drawn from the fresh counter at construction. -/
structure Bookmark where
  id : Nat
  uri : String
  line : Int
  collectionId : Option String
  description : String
  createdAt : Nat
  order : Int
deriving DecidableEq, Repr

/-- The collection entity (`src/models/Collection.ts`). Generated uuids are
modelled by `mkUuid` of the fresh counter. -/
structure Collection where
  id : String
  name : String
  createdAt : Nat
  workspaceId : Option String
  order : Int
deriving DecidableEq, Repr

/-- Models `uuidv4()`: an injective encoding of the fresh counter that can
never collide with the reserved literal `ungrouped-bookmarks`. -/
def mkUuid (n : Nat) : String :=
  String.mk ('u' :: List.replicate n 'x')

/-- The combined in-memory state of `BookmarkManager` and
`CollectionManager`, plus the fresh counter for uuid/timestamp draws. -/
structure ManagerState where
  bookmarks : List Bookmark
  collections : List Collection
  fresh : Nat
deriving DecidableEq, Repr

/-- Read-only environment: the `lightBookmarks.maxBookmarksPerFile`
configuration value and `vscode.workspace.workspaceFolders?.[0]?.uri`
rendered as a string. -/
structure Env where
  maxBookmarksPerFile : Int
  workspaceFolder : Option String
deriving DecidableEq, Repr

/-- Models the JavaScript idiom `s || d` on an optional string: `undefined`
and the empty string are falsy. -/
def jsOrStr : Option String → String → String
  | none, d => d
  | some s, d => if s = "" then d else s

/-- Models `CollectionManager.getRelativeWorkspaceId`: the last nonempty
`/`-separated segment of the uri path, or none when there is no segment. -/
def getRelativeWorkspaceId (u : Uri) : Option String :=
  let pathParts := (splitChar '/' u.path.toList).filter (fun p => p.length > 0)
  pathParts.getLast?.map String.mk

/-- Models the conversion prelude repeated throughout `CollectionManager`:
a workspace id that contains `://` is parsed and reduced to its relative
id, any other value is used as-is. -/
def normalizeWorkspaceId : Option String → Option String
  | none => none
  | some w =>
    if containsScheme w then getRelativeWorkspaceId (parseUri w)
    else some w

/-- Models `CollectionManager.getCollection`. -/
def getCollection (st : ManagerState) (id : String) : Option Collection :=
  st.collections.find? (fun c => c.id == id)

/-- Models `CollectionManager.getNextOrderForWorkspace`: zero when the
scope is empty, otherwise the maximum existing order plus one. -/
def getNextOrderForWorkspace (st : ManagerState) (workspaceId : Option String) : Int :=
  let rel := normalizeWorkspaceId workspaceId
  let workspaceCollections := st.collections.filter (fun c => c.workspaceId == rel)
  match workspaceCollections.map (fun c => c.order) with
  | [] => 0
  | o :: os => os.foldl max o + 1

/-- Models `CollectionManager.createCollection`. -/
def createCollection (st : ManagerState) (name : String) (workspaceId : Option String) :
    ManagerState × Option Collection :=
  let rel := normalizeWorkspaceId workspaceId
  match st.collections.find? (fun c => c.name == name && c.workspaceId == rel) with
  | some _ => (st, none)
  | none =>
    let nextOrder := getNextOrderForWorkspace st rel
    let c : Collection :=
      { id := mkUuid st.fresh, name := name, createdAt := st.fresh,
        workspaceId := rel, order := nextOrder }
    ({ st with collections := st.collections ++ [c], fresh := st.fresh + 1 }, some c)

/-- Models `CollectionManager.addCollection`: skips silently when a
collection with the same id already exists. -/
def addCollection (st : ManagerState) (c : Collection) : ManagerState :=
  if st.collections.any (fun x => x.id == c.id) then st
  else { st with collections := st.collections ++ [c] }

/-- Models `CollectionManager.ensureUngroupedCollection`: returns the
existing reserved-id collection of the scope when present, otherwise
creates one (the uuid drawn by `new Collection` is discarded by the
`Object.defineProperty` override, but the counter still ticks). -/
def ensureUngroupedCollection (st : ManagerState) (workspaceId : Option String) :
    ManagerState × Collection :=
  let rel := normalizeWorkspaceId workspaceId
  match st.collections.find? (fun c => c.id == "ungrouped-bookmarks" && c.workspaceId == rel) with
  | some c => (st, c)
  | none =>
    let ungrouped : Collection :=
      { id := "ungrouped-bookmarks", name := "Ungrouped", createdAt := st.fresh,
        workspaceId := rel, order := 0 }
    ({ st with collections := st.collections ++ [ungrouped], fresh := st.fresh + 1 }, ungrouped)

/-- The scope siblings of a collection move, sorted ascending by order
(a stable model of `workspaceCollections.sort((a, b) => a.order - b.order)`). -/
def collectionSiblingsSorted (st : ManagerState) (ws : Option String) : List Collection :=
  (st.collections.filter (fun c => c.workspaceId == ws)).insertionSort
    (fun a b => a.order ≤ b.order)

/-- The order swap of a collection move: the moved collection (found by
id) takes the adjacent sibling order and the adjacent sibling takes the
moved collection pre-swap order. -/
def collectionSwapOrd (collectionId : String) (other collection : Collection)
    (c : Collection) : Collection :=
  if c.id == collectionId then { c with order := other.order }
  else if c.id == other.id then { c with order := collection.order }
  else c

/-- The renormalisation of a collection move: each sibling order becomes
its rank in the re-sorted sibling array. -/
def collectionRenorm (sorted2 : List Collection) (c : Collection) : Collection :=
  match sorted2.findIdx? (fun x => x.id == c.id) with
  | some j => { c with order := (j : Int) }
  | none => c

/-- Models `CollectionManager.moveCollectionUp`: locate the sorted scope
siblings, fail at the boundary, otherwise swap orders with the previous
sibling and renormalise every sibling order to its rank. -/
def moveCollectionUp (st : ManagerState) (collectionId : String) : ManagerState × Bool :=
  match getCollection st collectionId with
  | none => (st, false)
  | some collection =>
    let sorted := collectionSiblingsSorted st collection.workspaceId
    match sorted.findIdx? (fun c => c.id == collectionId) with
    | none => (st, false)
    | some 0 => (st, false)
    | some (i + 1) =>
      match sorted[i]? with
      | none => (st, false)
      | some previousCollection =>
        let sorted2 :=
          (sorted.map (collectionSwapOrd collectionId previousCollection collection)).insertionSort
            (fun a b => a.order ≤ b.order)
        ({ st with collections := st.collections.map (fun c =>
            if c.workspaceId == collection.workspaceId then
              collectionRenorm sorted2
                (collectionSwapOrd collectionId previousCollection collection c)
            else c) },
         true)

/-- Models `CollectionManager.moveCollectionDown` (swap with the next
sibling instead of the previous one). -/
def moveCollectionDown (st : ManagerState) (collectionId : String) : ManagerState × Bool :=
  match getCollection st collectionId with
  | none => (st, false)
  | some collection =>
    let sorted := collectionSiblingsSorted st collection.workspaceId
    match sorted.findIdx? (fun c => c.id == collectionId) with
    | none => (st, false)
    | some i =>
      match sorted[i + 1]? with
      | none => (st, false)
      | some nextCollection =>
        let sorted2 :=
          (sorted.map (collectionSwapOrd collectionId nextCollection collection)).insertionSort
            (fun a b => a.order ≤ b.order)
        ({ st with collections := st.collections.map (fun c =>
            if c.workspaceId == collection.workspaceId then
              collectionRenorm sorted2
                (collectionSwapOrd collectionId nextCollection collection c)
            else c) },
         true)

/-- The sort order used by `BookmarkManager.getBookmarksByCollection`:
ascending `order`, ties broken by ascending `createdAt`. -/
def bkLe (a b : Bookmark) : Prop :=
  a.order < b.order ∨ (a.order = b.order ∧ a.createdAt ≤ b.createdAt)

instance : DecidableRel bkLe := fun a b => by
  unfold bkLe
  infer_instance

/-- Models `BookmarkManager.getBookmarksByCollection`: filter by collection
id, then sort by order with creation-date tiebreak. -/
def getBookmarksByCollection (st : ManagerState) (collectionId : String) : List Bookmark :=
  (st.bookmarks.filter (fun b => b.collectionId == some collectionId)).insertionSort bkLe

/-- Models `BookmarkManager.getBookmarksByUri`. -/
def getBookmarksByUri (st : ManagerState) (uri : String) : List Bookmark :=
  st.bookmarks.filter (fun b => b.uri == uri)

/-- Models `BookmarkManager.getBookmark`. -/
def getBookmark (st : ManagerState) (uri : String) (line : Int) : Option Bookmark :=
  st.bookmarks.find? (fun b => b.uri == uri && b.line == line)

/-- Models `BookmarkManager.hasBookmark`. -/
def hasBookmark (st : ManagerState) (uri : String) (line : Int) : Bool :=
  (getBookmark st uri line).isSome

/-- The state after the ensure-ungrouped prelude of
`BookmarkManager.addBookmark`: unchanged unless the add resolves to the
ungrouped sentinel collection. -/
def addTargetState (env : Env) (st : ManagerState) (collectionId : Option String) :
    ManagerState :=
  if jsOrStr collectionId "ungrouped-bookmarks" = "ungrouped-bookmarks" then
    (ensureUngroupedCollection st env.workspaceFolder).1
  else st

/-- The bookmark record built by a successful
`BookmarkManager.addBookmark`: uuid and timestamp from the fresh counter,
order ten times the current size of the target collection. -/
def addNewBookmark (env : Env) (st : ManagerState) (uri : String) (line : Int)
    (collectionId : Option String) (description : Option String) : Bookmark :=
  { id := (addTargetState env st collectionId).fresh, uri := uri, line := line,
    collectionId := some (jsOrStr collectionId "ungrouped-bookmarks"),
    description := jsOrStr description "",
    createdAt := (addTargetState env st collectionId).fresh,
    order := ((getBookmarksByCollection (addTargetState env st collectionId)
        (jsOrStr collectionId "ungrouped-bookmarks")).length : Int) * 10 }

/-- Models `BookmarkManager.addBookmark`: fail on a duplicate `(uri, line)`
or a full file, ensure the ungrouped collection when resolving to it, then
append the new bookmark. -/
def addBookmark (env : Env) (st : ManagerState) (uri : String) (line : Int)
    (collectionId : Option String) (description : Option String) :
    ManagerState × Option Bookmark :=
  match st.bookmarks.find? (fun b => b.uri == uri && b.line == line) with
  | some _ => (st, none)
  | none =>
    if env.maxBookmarksPerFile ≤
        ((st.bookmarks.filter (fun b => b.uri == uri)).length : Int) then (st, none)
    else
      let st1 := addTargetState env st collectionId
      let bookmark := addNewBookmark env st uri line collectionId description
      ({ st1 with bookmarks := st1.bookmarks ++ [bookmark], fresh := st1.fresh + 1 },
       some bookmark)

/-- Models `BookmarkManager.removeBookmark`: splice out the first bookmark
matching the `(uri, line)` key. -/
def removeBookmark (st : ManagerState) (uri : String) (line : Int) : ManagerState × Bool :=
  if st.bookmarks.any (fun b => b.uri == uri && b.line == line) then
    ({ st with bookmarks := st.bookmarks.eraseP (fun b => b.uri == uri && b.line == line) },
     true)
  else (st, false)

/-- The order swap of a bookmark move: the moved bookmark (found by its
`(uri, line)` key) takes the adjacent sibling order and the adjacent
sibling takes the moved bookmark pre-swap order. -/
def bookmarkSwapOrd (uri : String) (line : Int) (other bookmark : Bookmark)
    (b : Bookmark) : Bookmark :=
  if b.uri == uri && b.line == line then { b with order := other.order }
  else if b.uri == other.uri && b.line == other.line then { b with order := bookmark.order }
  else b

/-- The renormalisation of a bookmark move: each sibling order becomes ten
times its rank in the re-sorted sibling array. -/
def bookmarkRenorm (sorted2 : List Bookmark) (b : Bookmark) : Bookmark :=
  match sorted2.findIdx? (fun x => x.uri == b.uri && x.line == b.line) with
  | some j => { b with order := (j : Int) * 10 }
  | none => b

/-- Models `BookmarkManager.moveBookmarkUp`: same sorted-siblings swap and
renormalisation as collections, scoped to the bookmark collection, with
ranks scaled by ten. -/
def moveBookmarkUp (st : ManagerState) (uri : String) (line : Int) : ManagerState × Bool :=
  match st.bookmarks.find? (fun b => b.uri == uri && b.line == line) with
  | none => (st, false)
  | some bookmark =>
    match bookmark.collectionId with
    | none => (st, false)
    | some cid =>
      if cid = "" then (st, false)
      else
        let collectionBookmarks := getBookmarksByCollection st cid
        match collectionBookmarks.findIdx? (fun b => b.uri == uri && b.line == line) with
        | none => (st, false)
        | some 0 => (st, false)
        | some (i + 1) =>
          match collectionBookmarks[i]? with
          | none => (st, false)
          | some previousBookmark =>
            let sorted2 :=
              (collectionBookmarks.map (bookmarkSwapOrd uri line previousBookmark bookmark)).insertionSort
                (fun a b => a.order ≤ b.order)
            ({ st with bookmarks := st.bookmarks.map (fun b =>
                if b.collectionId == some cid then
                  bookmarkRenorm sorted2 (bookmarkSwapOrd uri line previousBookmark bookmark b)
                else b) },
             true)

/-- Models `BookmarkManager.moveBookmarkDown` (swap with the next sibling
instead of the previous one). -/
def moveBookmarkDown (st : ManagerState) (uri : String) (line : Int) : ManagerState × Bool :=
  match st.bookmarks.find? (fun b => b.uri == uri && b.line == line) with
  | none => (st, false)
  | some bookmark =>
    match bookmark.collectionId with
    | none => (st, false)
    | some cid =>
      if cid = "" then (st, false)
      else
        let collectionBookmarks := getBookmarksByCollection st cid
        match collectionBookmarks.findIdx? (fun b => b.uri == uri && b.line == line) with
        | none => (st, false)
        | some i =>
          match collectionBookmarks[i + 1]? with
          | none => (st, false)
          | some nextBookmark =>
            let sorted2 :=
              (collectionBookmarks.map (bookmarkSwapOrd uri line nextBookmark bookmark)).insertionSort
                (fun a b => a.order ≤ b.order)
            ({ st with bookmarks := st.bookmarks.map (fun b =>
                if b.collectionId == some cid then
                  bookmarkRenorm sorted2 (bookmarkSwapOrd uri line nextBookmark bookmark b)
                else b) },
             true)

/-- One entry of a `vscode.TextDocumentContentChangeEvent`: the replaced
line range and the inserted text. -/
structure ContentChange where
  startLine : Int
  endLine : Int
  text : String
deriving DecidableEq, Repr

/-- Models `change.text === '' ? 0 : change.text.split('\n').length - 1`:
the number of newline characters of nonempty text. -/
def linesAddedOf (text : String) : Int :=
  if text = "" then 0 else (text.toList.countP (fun c => c == '\n') : Int)

/-- A pending deletion recorded by the reconciliation compute phase. -/
structure PendingRemove where
  uri : String
  line : Int
deriving DecidableEq, Repr

/-- A pending line shift recorded by the reconciliation compute phase. -/
structure PendingUpdate where
  uri : String
  oldLine : Int
  newLine : Int
deriving DecidableEq, Repr

/-- The per-change compute phase of
`BookmarkManager.updateBookmarksForDocumentChanges`: classify every file
bookmark against the replaced range, against its pre-edit line. -/
def classifyChange (bookmarksInFile : List Bookmark)
    (acc : List PendingRemove × List PendingUpdate) (change : ContentChange) :
    List PendingRemove × List PendingUpdate :=
  let changeStartLine := change.startLine
  let changeEndLine := change.endLine
  let linesRemoved := changeEndLine - changeStartLine
  let linesAdded := linesAddedOf change.text
  bookmarksInFile.foldl (fun acc b =>
    if b.line < changeStartLine then acc
    else if changeStartLine ≤ b.line ∧ b.line ≤ changeEndLine then
      (acc.1 ++ [{ uri := b.uri, line := b.line }], acc.2)
    else if changeEndLine < b.line then
      let newLine := b.line - linesRemoved + linesAdded
      if 0 ≤ newLine then
        (acc.1, acc.2 ++ [{ uri := b.uri, oldLine := b.line, newLine := newLine }])
      else (acc.1 ++ [{ uri := b.uri, line := b.line }], acc.2)
    else acc) acc

/-- The apply phase for one pending shift: remove the bookmark at the old
line and re-add it at the new line with the same collection and
description; a missing bookmark or a failing re-add is ignored. -/
def applyUpdate (env : Env) (st : ManagerState) (u : PendingUpdate) : ManagerState :=
  match getBookmark st u.uri u.oldLine with
  | none => st
  | some bookmark =>
    let st1 := (removeBookmark st u.uri u.oldLine).1
    (addBookmark env st1 u.uri u.newLine bookmark.collectionId (some bookmark.description)).1

/-- Models `BookmarkManager.updateBookmarksForDocumentChanges`: compute all
removals and shifts against pre-edit lines, then apply all removals, then
apply the shifts in order; returns the removed and updated counts. -/
def updateBookmarksForDocumentChanges (env : Env) (st : ManagerState) (uri : String)
    (contentChanges : List ContentChange) : ManagerState × Nat × Nat :=
  let bookmarksInFile := getBookmarksByUri st uri
  if bookmarksInFile.isEmpty then (st, 0, 0)
  else
    let pending := contentChanges.foldl (classifyChange bookmarksInFile) ([], [])
    let st1 := pending.1.foldl (fun s r => (removeBookmark s r.uri r.line).1) st
    let st2 := pending.2.foldl (applyUpdate env) st1
    (st2, pending.1.length, pending.2.length)

/-- Models `ExportBookmarksCommand.makeUriRelative`: strip the workspace
folder prefix from uris inside the (single modelled) workspace folder,
leave every other uri untouched. -/
def makeUriRelative (env : Env) (absoluteUri : String) : String :=
  match env.workspaceFolder with
  | none => absoluteUri
  | some wf =>
    let uri := parseUri absoluteUri
    let workspaceUri := parseUri wf
    if uri.scheme = workspaceUri.scheme ∧ uri.authority = workspaceUri.authority ∧
        workspaceUri.path.toList.isPrefixOf uri.path.toList then
      match uri.path.toList.drop workspaceUri.path.toList.length with
      | '/' :: rest => String.mk rest
      | rel => String.mk rel
    else absoluteUri

/-- Models `ImportBookmarksCommand.makeUriAbsolute`: a uri that already
carries a scheme is kept, otherwise it is joined onto the workspace folder
(or turned into a `file://` uri when no folder is open and it is rooted). -/
def makeUriAbsolute (env : Env) (uriOrPath : String) : String :=
  if containsScheme uriOrPath then uriOrPath
  else
    match env.workspaceFolder with
    | none =>
      if uriOrPath.toList.head? = some '/' then
        uriToString { scheme := "file", authority := "", path := uriOrPath }
      else uriOrPath
    | some wf =>
      let workspaceUri := parseUri wf
      uriToString { workspaceUri with path := workspaceUri.path ++ "/" ++ uriOrPath }

/-- The uri translation a bookmark undergoes in an export-then-import
round trip: made workspace-relative on export, re-anchored on import. -/
def rtUri (env : Env) (u : String) : String :=
  makeUriAbsolute env (makeUriRelative env u)

/-- The bookmark produced by re-importing an exported bookmark into a
state whose fresh counter stands at `n`: a fresh id, the round-tripped
uri, every other field restored verbatim. -/
def roundTripBookmark (env : Env) (n : Nat) (b : Bookmark) : Bookmark :=
  { id := n, uri := rtUri env b.uri, line := b.line, collectionId := b.collectionId,
    description := b.description, createdAt := b.createdAt, order := b.order }

/-- One bookmark record of the export file format (no `id` field). -/
structure ExportedBookmark where
  uri : String
  line : Int
  description : Option String
  collectionId : Option String
  order : Option Int
  createdAt : Nat
deriving DecidableEq, Repr

/-- One collection record of the export file format. -/
structure ExportedCollection where
  id : String
  name : String
  workspaceId : Option String
  order : Option Int
  createdAt : Nat
deriving DecidableEq, Repr

/-- The parsed shape of an export file (`ImportData`). `exportDate` is
produced by the external clock and never consumed by the import logic, so
it is carried as an opaque string. Timestamps travel as their clock value:
`toISOString` on export and `new Date(...)` on import invert each other. -/
structure ExportData where
  version : String
  exportDate : String
  bookmarks : List ExportedBookmark
  collections : List ExportedCollection
deriving DecidableEq, Repr

/-- The export record of one bookmark: the uri made workspace-relative,
every other field verbatim, no id. -/
def exportedBookmarkOf (env : Env) (b : Bookmark) : ExportedBookmark :=
  { uri := makeUriRelative env b.uri, line := b.line,
    description := some b.description, collectionId := b.collectionId,
    order := some b.order, createdAt := b.createdAt }

/-- The export record of one collection: every field verbatim. -/
def exportedCollectionOf (c : Collection) : ExportedCollection :=
  { id := c.id, name := c.name, workspaceId := c.workspaceId,
    order := some c.order, createdAt := c.createdAt }

/-- Models the data construction of `ExportBookmarksCommand.execute`:
bookmarks with workspace-relative uris, collections verbatim. -/
def exportBookmarks (env : Env) (st : ManagerState) : ExportData :=
  { version := "1.0", exportDate := "",
    bookmarks := st.bookmarks.map (exportedBookmarkOf env),
    collections := st.collections.map exportedCollectionOf }

/-- The collection record produced by re-importing an exported collection:
id, creation stamp and order survive verbatim, the workspace scope is
replaced by the current workspace. -/
def importedCollection (env : Env) (c : Collection) : Collection :=
  { id := c.id, name := c.name, createdAt := c.createdAt,
    workspaceId := env.workspaceFolder, order := c.order }

/-- The user-selected import option. -/
inductive ImportMode where
  | replace
  | merge
deriving DecidableEq, Repr

/-- Models `x || 0` on the optional numeric `order` field of an imported
collection (`undefined` and `0` both map to `0`). -/
def jsOrInt : Option Int → Int
  | none => 0
  | some x => x

/-- One iteration of the collection import loop of
`ImportBookmarksCommand.execute`: build the collection for the current
workspace (the constructor uuid draw is discarded by the id override),
skip merge duplicates by id, then add. -/
def importCollectionStep (env : Env) (mode : ImportMode) (st : ManagerState)
    (collectionData : ExportedCollection) : ManagerState :=
  let c0 : Collection :=
    { id := mkUuid st.fresh, name := collectionData.name, createdAt := st.fresh,
      workspaceId := env.workspaceFolder, order := jsOrInt collectionData.order }
  let stA := { st with fresh := st.fresh + 1 }
  let collection := { c0 with id := collectionData.id, createdAt := collectionData.createdAt }
  if mode = ImportMode.merge ∧ (getCollection stA collectionData.id).isSome then stA
  else addCollection stA collection

/-- One iteration of the bookmark import loop of
`ImportBookmarksCommand.execute`: re-anchor the uri, skip merge duplicates
by `(uri, line)`, add through the manager, then restore the imported
`order` and `createdAt` onto the freshly created bookmark. -/
def importBookmarkStep (env : Env) (mode : ImportMode) (st : ManagerState)
    (bookmarkData : ExportedBookmark) : ManagerState :=
  let absoluteUri := makeUriAbsolute env bookmarkData.uri
  if mode = ImportMode.merge ∧ (getBookmark st absoluteUri bookmarkData.line).isSome then st
  else
    let collectionId := jsOrStr bookmarkData.collectionId "ungrouped-bookmarks"
    match addBookmark env st absoluteUri bookmarkData.line (some collectionId)
        bookmarkData.description with
    | (st1, none) => st1
    | (st1, some _) =>
      { st1 with bookmarks := st1.bookmarks.map (fun b =>
          if b.uri == absoluteUri && b.line == bookmarkData.line then
            { b with
              order := match bookmarkData.order with
                       | some o => o
                       | none => b.order,
              createdAt := bookmarkData.createdAt }
          else b) }

/-- Models the mutation phase of `ImportBookmarksCommand.execute` on
already-validated data: optional clear (replace mode), then the collection
loop, then the bookmark loop. -/
def importBookmarks (env : Env) (st : ManagerState) (data : ExportData)
    (mode : ImportMode) : ManagerState :=
  let st0 :=
    if mode = ImportMode.replace then { st with bookmarks := [], collections := [] } else st
  let st1 := data.collections.foldl (importCollectionStep env mode) st0
  data.bookmarks.foldl (importBookmarkStep env mode) st1

/-- A parsed JSON value, as produced by `JSON.parse`. -/
inductive Json where
  | null
  | bool (b : Bool)
  | num (n : Int)
  | str (s : String)
  | arr (elems : List Json)
  | obj (fields : List (String × Json))

/-- Field lookup on a parsed JSON object; models `key in obj` plus the
`obj.key` read (`JSON.parse` objects have unique keys). -/
def getFieldJ (fields : List (String × Json)) (k : String) : Option Json :=
  (fields.find? (fun f => f.1 == k)).map (fun f => f.2)

/-- True when the field exists and is a string. -/
def isStrJ : Option Json → Bool
  | some (Json.str _) => true
  | _ => false

/-- True when the field exists and is a number. -/
def isNumJ : Option Json → Bool
  | some (Json.num _) => true
  | _ => false

/-- The per-record bookmark check of
`ImportBookmarksCommand.validateImportData`. -/
def validBookmarkJ : Json → Bool
  | Json.obj fs =>
    isStrJ (getFieldJ fs "uri") && isNumJ (getFieldJ fs "line") &&
    isStrJ (getFieldJ fs "createdAt")
  | _ => false

/-- The per-record collection check of
`ImportBookmarksCommand.validateImportData`. -/
def validCollectionJ : Json → Bool
  | Json.obj fs =>
    isStrJ (getFieldJ fs "id") && isStrJ (getFieldJ fs "name") &&
    isStrJ (getFieldJ fs "createdAt")
  | _ => false

/-- Models `ImportBookmarksCommand.validateImportData`: the value must be
an object with string `version` and `exportDate`, and array `bookmarks`
and `collections` whose records carry the required typed fields. -/
def validateImportData : Json → Bool
  | Json.obj fs =>
    isStrJ (getFieldJ fs "version") && isStrJ (getFieldJ fs "exportDate") &&
    (match getFieldJ fs "bookmarks" with
     | some (Json.arr bs) => bs.all validBookmarkJ
     | _ => false) &&
    (match getFieldJ fs "collections" with
     | some (Json.arr cs) => cs.all validCollectionJ
     | _ => false)
  | _ => false

/-- Models reading a serialised timestamp back into a clock value (the
`new Date(s)` call on import): decimal decoding, the inverse of the clock
serialisation for the well-formed stamps the exporter writes. -/
def timestampOfString (s : String) : Nat :=
  s.toList.foldl (fun a c => a * 10 + (c.toNat - 48)) 0

/-- Extraction of the typed `ImportData` fields from validated JSON. -/
def toImportData : Json → ExportData
  | Json.obj fs =>
    { version :=
        match getFieldJ fs "version" with
        | some (Json.str s) => s
        | _ => "",
      exportDate :=
        match getFieldJ fs "exportDate" with
        | some (Json.str s) => s
        | _ => "",
      bookmarks :=
        match getFieldJ fs "bookmarks" with
        | some (Json.arr bs) =>
          bs.map (fun bj =>
            match bj with
            | Json.obj bfs =>
              { uri :=
                  match getFieldJ bfs "uri" with
                  | some (Json.str s) => s
                  | _ => "",
                line :=
                  match getFieldJ bfs "line" with
                  | some (Json.num n) => n
                  | _ => 0,
                description :=
                  match getFieldJ bfs "description" with
                  | some (Json.str s) => some s
                  | _ => none,
                collectionId :=
                  match getFieldJ bfs "collectionId" with
                  | some (Json.str s) => some s
                  | _ => none,
                order :=
                  match getFieldJ bfs "order" with
                  | some (Json.num n) => some n
                  | _ => none,
                createdAt :=
                  match getFieldJ bfs "createdAt" with
                  | some (Json.str s) => timestampOfString s
                  | _ => 0 }
            | _ =>
              { uri := "", line := 0, description := none, collectionId := none,
                order := none, createdAt := 0 })
        | _ => [],
      collections :=
        match getFieldJ fs "collections" with
        | some (Json.arr cs) =>
          cs.map (fun cj =>
            match cj with
            | Json.obj cfs =>
              { id :=
                  match getFieldJ cfs "id" with
                  | some (Json.str s) => s
                  | _ => "",
                name :=
                  match getFieldJ cfs "name" with
                  | some (Json.str s) => s
                  | _ => "",
                workspaceId :=
                  match getFieldJ cfs "workspaceId" with
                  | some (Json.str s) => some s
                  | _ => none,
                order :=
                  match getFieldJ cfs "order" with
                  | some (Json.num n) => some n
                  | _ => none,
                createdAt :=
                  match getFieldJ cfs "createdAt" with
                  | some (Json.str s) => timestampOfString s
                  | _ => 0 }
            | _ =>
              { id := "", name := "", workspaceId := none, order := none,
                createdAt := 0 })
        | _ => [] }
  | _ => { version := "", exportDate := "", bookmarks := [], collections := [] }

/-- Models the structural-validation gate of
`ImportBookmarksCommand.execute`: parsed input that fails
`validateImportData` is rejected before any mutation; valid input flows
into the import loops. -/
def executeImportJson (env : Env) (st : ManagerState) (j : Json) (mode : ImportMode) :
    ManagerState :=
  if validateImportData j then importBookmarks env st (toImportData j) mode else st

/-- The order values of all collections of one (already normalised)
workspace scope, in state order. -/
def collectionScopeOrders (st : ManagerState) (rel : Option String) : List Int :=
  (st.collections.filter (fun c => c.workspaceId == rel)).map (fun c => c.order)

/-- The order values of all bookmarks of one collection, in state order. -/
def bookmarkScopeOrders (st : ManagerState) (cid : String) : List Int :=
  (st.bookmarks.filter (fun b => b.collectionId == some cid)).map (fun b => b.order)

/-- A default environment: the default configuration value and no open
workspace folder. -/
def envStd : Env := { maxBookmarksPerFile := 100, workspaceFolder := none }

/-- An environment with one open workspace folder. -/
def envWs : Env := { maxBookmarksPerFile := 100, workspaceFolder := some "file:///ws" }

/-- A manager state with no bookmarks and no collections. -/
def emptyState (n : Nat) : ManagerState := { bookmarks := [], collections := [], fresh := n }

/-- A bookmark of file `f` in collection `c1`, used by the concrete
evaluation theorems. -/
def mkFileBookmark (id : Nat) (line : Int) (ord : Int) (ca : Nat) : Bookmark :=
  { id := id, uri := "f", line := line, collectionId := some "c1", description := "",
    createdAt := ca, order := ord }

/-- The reconciliation classification of a surviving untouched bookmark:
not in the edited file, or strictly above the replaced range. -/
def keepPredC3 (uri : String) (s : Int) (b : Bookmark) : Bool :=
  !(b.uri == uri && decide (s ≤ b.line))

/-- The reconciliation classification of a deleted bookmark for one change
`[s, e]` with `la` added lines: inside the replaced range, or below it with
a negative shift target. -/
def remPredC3 (s e la : Int) (b : Bookmark) : Bool :=
  (decide (s ≤ b.line) && decide (b.line ≤ e)) ||
    (decide (e < b.line) && decide (b.line - (e - s) + la < 0))

/-- The reconciliation classification of a shifted bookmark for one change
`[s, e]` with `la` added lines: below the replaced range with a
non-negative shift target. -/
def movPredC3 (s e la : Int) (b : Bookmark) : Bool :=
  decide (e < b.line) && decide (0 ≤ b.line - (e - s) + la)

/-- The pending-deletion record the reconciliation compute phase pushes for
a bookmark. -/
def pendingRemoveOf (b : Bookmark) : PendingRemove :=
  { uri := b.uri, line := b.line }

/-- The pending-shift record the reconciliation compute phase pushes for a
bookmark below a change `[s, e]` with `la` added lines. -/
def pendingUpdateOf (s e la : Int) (b : Bookmark) : PendingUpdate :=
  { uri := b.uri, oldLine := b.line, newLine := b.line - (e - s) + la }

/-- The removal phase of the reconciliation: apply every pending deletion
in order. -/
def removeFold (cur : ManagerState) (rs : List PendingRemove) : ManagerState :=
  rs.foldl (fun s r => (removeBookmark s r.uri r.line).1) cur

/-- The shift phase of the reconciliation: apply every pending update in
order. -/
def applyFold (env : Env) (cur : ManagerState) (us : List PendingUpdate) : ManagerState :=
  us.foldl (applyUpdate env) cur

/-- A three-bookmark state (lines 5, 10 and 15 of file `f`) used by the
concrete reconciliation evaluation. -/
def c3State : ManagerState :=
  { bookmarks := [mkFileBookmark 0 5 0 0, mkFileBookmark 1 10 10 1, mkFileBookmark 2 15 20 2],
    collections := [], fresh := 3 }

/-! Helper lemmas about the string-level utilities. -/

theorem slash_mem_of_breakScheme (l : List Char) (h : (breakScheme l).isSome = true) :
    '/' ∈ l := by
  induction l with
  | nil => simp [breakScheme] at h
  | cons c cs ih =>
    rw [breakScheme] at h
    split at h
    · next hc =>
      have hcs : '/' ∈ cs := by
        cases cs with
        | nil => simp at hc
        | cons a as =>
          have : a = '/' := by
            have := hc.2
            simp [List.take] at this
            exact this.1
          simp [this]
      exact List.mem_cons_of_mem _ hcs
    · rw [Option.isSome_map'] at h
      exact List.mem_cons_of_mem _ (ih h)

theorem not_mem_splitChar (sep : Char) (l : List Char) :
    ∀ p ∈ splitChar sep l, sep ∉ p := by
  induction l with
  | nil =>
    intro p hp
    simp [splitChar] at hp
    simp [hp]
  | cons c cs ih =>
    intro p hp
    rw [splitChar] at hp
    by_cases hc : c = sep
    · simp only [hc, if_pos rfl] at hp
      rcases List.mem_cons.mp hp with rfl | hmem
      · simp
      · exact ih p hmem
    · simp only [if_neg hc] at hp
      cases hr : splitChar sep cs with
      | nil =>
        rw [hr] at hp
        simp at hp
        subst hp
        simp [Ne.symm hc]
      | cons hh ht =>
        rw [hr] at hp
        rcases List.mem_cons.mp hp with rfl | hmem
        · intro habs
          rcases List.mem_cons.mp habs with h1 | h1
          · exact hc h1.symm
          · exact ih hh (by rw [hr]; exact List.mem_cons_self _ _) h1
        · exact ih p (by rw [hr]; exact List.mem_cons_of_mem _ hmem)

theorem containsScheme_of_string_mk_false (p : List Char) (hp : '/' ∉ p) :
    containsScheme (String.mk p) = false := by
  unfold containsScheme
  by_contra h
  have h2 : (breakScheme (String.mk p).toList).isSome = true := by
    revert h
    cases (breakScheme (String.mk p).toList).isSome <;> simp
  have : '/' ∈ p := slash_mem_of_breakScheme _ h2
  exact hp this

theorem getRelativeWorkspaceId_no_scheme (u : Uri) (seg : String)
    (h : getRelativeWorkspaceId u = some seg) : containsScheme seg = false := by
  unfold getRelativeWorkspaceId at h
  rw [Option.map_eq_some'] at h
  obtain ⟨p, hp, rfl⟩ := h
  have hmem : p ∈ (splitChar '/' u.path.toList).filter (fun q => q.length > 0) :=
    List.mem_of_mem_getLast? hp
  have hmem2 : p ∈ splitChar '/' u.path.toList := List.mem_of_mem_filter hmem
  exact containsScheme_of_string_mk_false p (not_mem_splitChar _ _ p hmem2)

theorem normalizeWorkspaceId_idem (w : Option String) :
    normalizeWorkspaceId (normalizeWorkspaceId w) = normalizeWorkspaceId w := by
  match w with
  | none => rfl
  | some s =>
    rw [normalizeWorkspaceId]
    by_cases hc : containsScheme s
    · rw [if_pos hc]
      cases hg : getRelativeWorkspaceId (parseUri s) with
      | none => rfl
      | some seg =>
        rw [normalizeWorkspaceId, if_neg]
        rw [getRelativeWorkspaceId_no_scheme _ _ hg]
        simp
    · rw [if_neg hc, normalizeWorkspaceId, if_neg hc]

/-! Helper lemmas about folded maxima (the `Math.max(...)` call). -/

theorem le_foldl_max (o : Int) (os : List Int) : o ≤ os.foldl max o := by
  induction os generalizing o with
  | nil => simp
  | cons x xs ih => exact le_trans (le_max_left o x) (ih (max o x))

theorem mem_le_foldl_max (o x : Int) (os : List Int) (hx : x ∈ os) : x ≤ os.foldl max o := by
  induction os generalizing o with
  | nil => cases hx
  | cons y ys ih =>
    rcases List.mem_cons.mp hx with rfl | h
    · exact le_trans (le_max_right o x) (le_foldl_max _ _)
    · exact ih _ h

theorem foldl_max_mem (o : Int) (os : List Int) : os.foldl max o ∈ o :: os := by
  induction os generalizing o with
  | nil => simp
  | cons x xs ih =>
    have h := ih (max o x)
    rw [List.foldl_cons]
    rcases List.mem_cons.mp h with h1 | h1
    · rcases max_choice o x with h2 | h2
      · rw [h1, h2]
        exact List.mem_cons_self _ _
      · rw [h1, h2]
        exact List.mem_cons_of_mem _ (List.mem_cons_self _ _)
    · exact List.mem_cons_of_mem _ (List.mem_cons_of_mem _ h1)

/-! Helper lemmas about the manager operations. -/

theorem ensureUngrouped_bookmarks_eq (st : ManagerState) (w : Option String) :
    (ensureUngroupedCollection st w).1.bookmarks = st.bookmarks := by
  unfold ensureUngroupedCollection
  cases h : st.collections.find?
      (fun c => c.id == "ungrouped-bookmarks" && c.workspaceId == normalizeWorkspaceId w) <;>
    simp [h]

theorem ensureUngrouped_snd_id (st : ManagerState) (w : Option String) :
    (ensureUngroupedCollection st w).2.id = "ungrouped-bookmarks" := by
  unfold ensureUngroupedCollection
  cases h : st.collections.find?
      (fun c => c.id == "ungrouped-bookmarks" && c.workspaceId == normalizeWorkspaceId w) with
  | none => simp [h]
  | some c =>
    have hp := List.find?_some h
    simp only [Bool.and_eq_true, beq_iff_eq] at hp
    simp [h, hp.1]

theorem ensureUngrouped_snd_ws (st : ManagerState) (w : Option String) :
    (ensureUngroupedCollection st w).2.workspaceId = normalizeWorkspaceId w := by
  unfold ensureUngroupedCollection
  cases h : st.collections.find?
      (fun c => c.id == "ungrouped-bookmarks" && c.workspaceId == normalizeWorkspaceId w) with
  | none => simp [h]
  | some c =>
    have hp := List.find?_some h
    simp only [Bool.and_eq_true, beq_iff_eq] at hp
    simp [h, hp.2]

theorem ensureUngrouped_mem (st : ManagerState) (w : Option String) :
    (ensureUngroupedCollection st w).2 ∈ (ensureUngroupedCollection st w).1.collections := by
  unfold ensureUngroupedCollection
  cases h : st.collections.find?
      (fun c => c.id == "ungrouped-bookmarks" && c.workspaceId == normalizeWorkspaceId w) with
  | none => simp [h]
  | some c =>
    have hm := List.mem_of_find?_eq_some h
    simp [h, hm]

theorem ensureUngrouped_of_find_some (st : ManagerState) (w : Option String) (c : Collection)
    (h : st.collections.find?
      (fun c => c.id == "ungrouped-bookmarks" && c.workspaceId == normalizeWorkspaceId w) =
      some c) :
    ensureUngroupedCollection st w = (st, c) := by
  unfold ensureUngroupedCollection
  simp only [h]

theorem ensureUngrouped_of_find_none (st : ManagerState) (w : Option String)
    (h : st.collections.find?
      (fun c => c.id == "ungrouped-bookmarks" && c.workspaceId == normalizeWorkspaceId w) =
      none) :
    ensureUngroupedCollection st w =
      ({ st with
          collections := st.collections ++
            [{ id := "ungrouped-bookmarks", name := "Ungrouped", createdAt := st.fresh,
               workspaceId := normalizeWorkspaceId w, order := 0 }],
          fresh := st.fresh + 1 },
       { id := "ungrouped-bookmarks", name := "Ungrouped", createdAt := st.fresh,
         workspaceId := normalizeWorkspaceId w, order := 0 }) := by
  unfold ensureUngroupedCollection
  simp only [h]

theorem ensureUngrouped_idem (st : ManagerState) (w : Option String) :
    ensureUngroupedCollection (ensureUngroupedCollection st w).1 w =
      ensureUngroupedCollection st w := by
  cases h : st.collections.find?
      (fun c => c.id == "ungrouped-bookmarks" && c.workspaceId == normalizeWorkspaceId w) with
  | some c =>
    rw [ensureUngrouped_of_find_some st w c h]
    exact ensureUngrouped_of_find_some st w c h
  | none =>
    rw [ensureUngrouped_of_find_none st w h]
    apply ensureUngrouped_of_find_some
    rw [List.find?_append, h]
    simp

/-- C8: `ensureUngroupedCollection` is idempotent per workspace scope: a
second call with the same scope is a no-op returning the same reserved-id
collection, and calls for two scopes with distinct normalised ids return
two distinct collections. -/
theorem C8_ensureUngrouped_singleton (st : ManagerState) (w1 w2 : Option String) :
    ensureUngroupedCollection (ensureUngroupedCollection st w1).1 w1 =
      ensureUngroupedCollection st w1 ∧
    (ensureUngroupedCollection st w1).2.id = "ungrouped-bookmarks" ∧
    (normalizeWorkspaceId w1 ≠ normalizeWorkspaceId w2 →
      (ensureUngroupedCollection (ensureUngroupedCollection st w1).1 w2).2 ≠
        (ensureUngroupedCollection st w1).2) := by
  refine ⟨ensureUngrouped_idem st w1, ensureUngrouped_snd_id st w1, ?_⟩
  intro hne heq
  apply hne
  rw [← ensureUngrouped_snd_ws st w1,
    ← ensureUngrouped_snd_ws (ensureUngroupedCollection st w1).1 w2, heq]

/-- Witness for C8 at a concrete state and two concrete scopes. -/
theorem C8_ensureUngrouped_singleton_witness :
    (ensureUngroupedCollection
        (ensureUngroupedCollection (emptyState 0) (some "a")).1 (some "b")).2 ≠
      (ensureUngroupedCollection (emptyState 0) (some "a")).2 :=
  (C8_ensureUngrouped_singleton (emptyState 0) (some "a") (some "b")).2.2 (by decide)

theorem createCollection_of_find_some (st : ManagerState) (name : String)
    (w : Option String) (c0 : Collection)
    (h : st.collections.find?
      (fun c => c.name == name && c.workspaceId == normalizeWorkspaceId w) = some c0) :
    createCollection st name w = (st, none) := by
  unfold createCollection
  simp only [h]

theorem createCollection_of_find_none (st : ManagerState) (name : String)
    (w : Option String)
    (h : st.collections.find?
      (fun c => c.name == name && c.workspaceId == normalizeWorkspaceId w) = none) :
    createCollection st name w =
      ({ st with
          collections := st.collections ++
            [{ id := mkUuid st.fresh, name := name, createdAt := st.fresh,
               workspaceId := normalizeWorkspaceId w,
               order := getNextOrderForWorkspace st (normalizeWorkspaceId w) }],
          fresh := st.fresh + 1 },
       some { id := mkUuid st.fresh, name := name, createdAt := st.fresh,
              workspaceId := normalizeWorkspaceId w,
              order := getNextOrderForWorkspace st (normalizeWorkspaceId w) }) := by
  unfold createCollection
  simp only [h]

theorem addTargetState_bookmarks (env : Env) (st : ManagerState) (cid : Option String) :
    (addTargetState env st cid).bookmarks = st.bookmarks := by
  unfold addTargetState
  split
  · exact ensureUngrouped_bookmarks_eq st env.workspaceFolder
  · rfl

theorem addBookmark_of_find_some (env : Env) (st : ManagerState) (uri : String) (line : Int)
    (cid desc : Option String) (b0 : Bookmark)
    (h : st.bookmarks.find? (fun b => b.uri == uri && b.line == line) = some b0) :
    addBookmark env st uri line cid desc = (st, none) := by
  unfold addBookmark
  simp only [h]

theorem addBookmark_of_full (env : Env) (st : ManagerState) (uri : String) (line : Int)
    (cid desc : Option String)
    (hf : st.bookmarks.find? (fun b => b.uri == uri && b.line == line) = none)
    (hm : env.maxBookmarksPerFile ≤
      ((st.bookmarks.filter (fun b => b.uri == uri)).length : Int)) :
    addBookmark env st uri line cid desc = (st, none) := by
  unfold addBookmark
  simp only [hf, if_pos hm]

theorem addBookmark_of_ok (env : Env) (st : ManagerState) (uri : String) (line : Int)
    (cid desc : Option String)
    (hf : st.bookmarks.find? (fun b => b.uri == uri && b.line == line) = none)
    (hm : ¬ env.maxBookmarksPerFile ≤
      ((st.bookmarks.filter (fun b => b.uri == uri)).length : Int)) :
    addBookmark env st uri line cid desc =
      ({ addTargetState env st cid with
          bookmarks := (addTargetState env st cid).bookmarks ++
            [addNewBookmark env st uri line cid desc],
          fresh := (addTargetState env st cid).fresh + 1 },
       some (addNewBookmark env st uri line cid desc)) := by
  unfold addBookmark
  simp only [hf, if_neg hm]

/-- C9: `createCollection` returns no collection exactly when the name
already exists in the normalised scope, a failed create leaves the state
unchanged, and a successful create appends exactly one collection whose
order is zero for an empty scope and the maximum existing scope order plus
one otherwise. -/
theorem C9_createCollection_spec (st : ManagerState) (name : String) (w : Option String) :
    ((createCollection st name w).2 = none ↔
      ∃ c ∈ st.collections, c.name = name ∧ c.workspaceId = normalizeWorkspaceId w) ∧
    ((createCollection st name w).2 = none → (createCollection st name w).1 = st) ∧
    (∀ c, (createCollection st name w).2 = some c →
      (createCollection st name w).1.collections = st.collections ++ [c] ∧
      (collectionScopeOrders st (normalizeWorkspaceId w) = [] → c.order = 0) ∧
      (∀ o os, collectionScopeOrders st (normalizeWorkspaceId w) = o :: os →
        c.order - 1 ∈ o :: os ∧ ∀ x ∈ o :: os, x ≤ c.order - 1)) := by
  have horder : getNextOrderForWorkspace st (normalizeWorkspaceId w) =
      match collectionScopeOrders st (normalizeWorkspaceId w) with
      | [] => 0
      | o :: os => os.foldl max o + 1 := by
    unfold getNextOrderForWorkspace collectionScopeOrders
    rw [normalizeWorkspaceId_idem]
  cases hf : st.collections.find?
      (fun c => c.name == name && c.workspaceId == normalizeWorkspaceId w) with
  | some c0 =>
    have hmem := List.mem_of_find?_eq_some hf
    have hp := List.find?_some hf
    simp only [Bool.and_eq_true, beq_iff_eq] at hp
    rw [createCollection_of_find_some st name w c0 hf]
    refine ⟨⟨fun _ => ⟨c0, hmem, hp.1, hp.2⟩, fun _ => rfl⟩, fun _ => rfl, ?_⟩
    intro c hc
    exact Option.noConfusion hc
  | none =>
    have hnone := List.find?_eq_none.mp hf
    rw [createCollection_of_find_none st name w hf]
    refine ⟨?_, ?_, ?_⟩
    · constructor
      · intro h
        exact Option.noConfusion h
      · rintro ⟨c, hc, h1, h2⟩
        exact absurd (by simp [h1, h2]) (hnone c hc)
    · intro h
      exact Option.noConfusion h
    · intro c hc
      have hc2 := Option.some.inj hc
      refine ⟨by rw [hc2], ?_, ?_⟩
      · intro hempty
        rw [← hc2]
        simp only [horder, hempty]
      · intro o os hcons
        rw [← hc2]
        simp only [horder, hcons]
        constructor
        · simpa using foldl_max_mem o os
        · intro x hx
          rcases List.mem_cons.mp hx with rfl | hx2
          · simpa using le_foldl_max x os
          · simpa using mem_le_foldl_max o x os hx2

/-- C5: `addBookmark` returns no bookmark exactly on a duplicate
`(uri, line)` key or a file already holding at least the configured
maximum; a failed add leaves the whole state unchanged, and a successful
add appends exactly the one returned bookmark. -/
theorem C5_addBookmark_failure_and_append (env : Env) (st : ManagerState) (uri : String)
    (line : Int) (cid desc : Option String) :
    ((addBookmark env st uri line cid desc).2 = none ↔
      (∃ b ∈ st.bookmarks, b.uri = uri ∧ b.line = line) ∨
        env.maxBookmarksPerFile ≤
          ((st.bookmarks.filter (fun b => b.uri == uri)).length : Int)) ∧
    ((addBookmark env st uri line cid desc).2 = none →
      (addBookmark env st uri line cid desc).1 = st) ∧
    (∀ b, (addBookmark env st uri line cid desc).2 = some b →
      (addBookmark env st uri line cid desc).1.bookmarks = st.bookmarks ++ [b] ∧
      b.uri = uri ∧ b.line = line) := by
  cases hf : st.bookmarks.find? (fun b => b.uri == uri && b.line == line) with
  | some b0 =>
    have hmem := List.mem_of_find?_eq_some hf
    have hp := List.find?_some hf
    simp only [Bool.and_eq_true, beq_iff_eq] at hp
    rw [addBookmark_of_find_some env st uri line cid desc b0 hf]
    refine ⟨⟨fun _ => Or.inl ⟨b0, hmem, hp.1, hp.2⟩, fun _ => rfl⟩, fun _ => rfl, ?_⟩
    intro b hb
    exact Option.noConfusion hb
  | none =>
    have hnone := List.find?_eq_none.mp hf
    by_cases hm : env.maxBookmarksPerFile ≤
        ((st.bookmarks.filter (fun b => b.uri == uri)).length : Int)
    · rw [addBookmark_of_full env st uri line cid desc hf hm]
      refine ⟨⟨fun _ => Or.inr hm, fun _ => rfl⟩, fun _ => rfl, ?_⟩
      intro b hb
      exact Option.noConfusion hb
    · rw [addBookmark_of_ok env st uri line cid desc hf hm]
      refine ⟨?_, ?_, ?_⟩
      · constructor
        · intro h
          exact Option.noConfusion h
        · rintro (⟨b, hb, h1, h2⟩ | h)
          · exact absurd (by simp [h1, h2]) (hnone b hb)
          · exact absurd h hm
      · intro h
        exact Option.noConfusion h
      · intro b hb
        have hb2 := Option.some.inj hb
        refine ⟨?_, by rw [← hb2]; rfl, by rw [← hb2]; rfl⟩
        rw [addTargetState_bookmarks, hb2]

/-- Witness for C5: a duplicate add at a concrete state fails and leaves
the state unchanged, and an add into an empty state appends exactly the
constructed bookmark. -/
theorem C5_addBookmark_failure_and_append_witness :
    (addBookmark envStd
      { bookmarks := [mkFileBookmark 3 1 0 0], collections := [], fresh := 4 }
      "f" 1 (some "c1") none).2 = none ∧
    (addBookmark envStd
      { bookmarks := [mkFileBookmark 3 1 0 0], collections := [], fresh := 4 }
      "f" 1 (some "c1") none).1 =
      { bookmarks := [mkFileBookmark 3 1 0 0], collections := [], fresh := 4 } ∧
    (addBookmark envStd (emptyState 0) "g" 2 (some "c1") none).1.bookmarks =
      (emptyState 0).bookmarks ++ [addNewBookmark envStd (emptyState 0) "g" 2 (some "c1") none] := by
  have h := C5_addBookmark_failure_and_append envStd
    { bookmarks := [mkFileBookmark 3 1 0 0], collections := [], fresh := 4 } "f" 1 (some "c1") none
  have hnone : (addBookmark envStd
      { bookmarks := [mkFileBookmark 3 1 0 0], collections := [], fresh := 4 }
      "f" 1 (some "c1") none).2 = none :=
    h.1.mpr (Or.inl ⟨mkFileBookmark 3 1 0 0, by simp, rfl, rfl⟩)
  have h2 := C5_addBookmark_failure_and_append envStd (emptyState 0) "g" 2 (some "c1") none
  exact ⟨hnone, h.2.1 hnone, (h2.2.2 _ (by decide)).1⟩

/-- Witness for C9: a duplicate name at a concrete state fails and leaves
the state unchanged, and a successful create at a concrete state appends
the one constructed collection. -/
theorem C9_createCollection_spec_witness :
    (createCollection
      { bookmarks := [],
        collections := [{ id := "a", name := "N", createdAt := 0,
                          workspaceId := some "ws", order := 0 }], fresh := 1 }
      "N" (some "ws")).2 = none ∧
    (createCollection
      { bookmarks := [],
        collections := [{ id := "a", name := "N", createdAt := 0,
                          workspaceId := some "ws", order := 0 }], fresh := 1 }
      "N" (some "ws")).1 =
      { bookmarks := [],
        collections := [{ id := "a", name := "N", createdAt := 0,
                          workspaceId := some "ws", order := 0 }], fresh := 1 } ∧
    (createCollection
      { bookmarks := [],
        collections := [{ id := "a", name := "M", createdAt := 0,
                          workspaceId := some "ws", order := 5 }], fresh := 1 }
      "N" (some "ws")).1.collections =
      [{ id := "a", name := "M", createdAt := 0, workspaceId := some "ws", order := 5 }] ++
        [{ id := mkUuid 1, name := "N", createdAt := 1, workspaceId := some "ws",
           order := getNextOrderForWorkspace
             { bookmarks := [],
               collections := [{ id := "a", name := "M", createdAt := 0,
                                 workspaceId := some "ws", order := 5 }], fresh := 1 }
             (normalizeWorkspaceId (some "ws")) }] := by
  have h := C9_createCollection_spec
    { bookmarks := [],
      collections := [{ id := "a", name := "N", createdAt := 0,
                        workspaceId := some "ws", order := 0 }], fresh := 1 }
    "N" (some "ws")
  have hnone : (createCollection
      { bookmarks := [],
        collections := [{ id := "a", name := "N", createdAt := 0,
                          workspaceId := some "ws", order := 0 }], fresh := 1 }
      "N" (some "ws")).2 = none :=
    h.1.mpr ⟨{ id := "a", name := "N", createdAt := 0, workspaceId := some "ws", order := 0 },
      by simp, rfl, by decide⟩
  have h2 := C9_createCollection_spec
    { bookmarks := [],
      collections := [{ id := "a", name := "M", createdAt := 0,
                        workspaceId := some "ws", order := 5 }], fresh := 1 }
    "N" (some "ws")
  exact ⟨hnone, h.2.1 hnone, (h2.2.2 _ (by decide)).1⟩

/-- C7: structurally malformed import input is rejected before any
mutation: the manager state is returned entirely unchanged. -/
theorem C7_invalid_import_no_mutation (env : Env) (st : ManagerState) (j : Json)
    (mode : ImportMode) (h : validateImportData j = false) :
    executeImportJson env st j mode = st := by
  unfold executeImportJson
  rw [h]
  rfl

/-- Witness for C7: an object missing every required field is rejected and
a nonempty state survives a replace-mode import of it untouched. -/
theorem C7_invalid_import_no_mutation_witness :
    validateImportData (Json.obj []) = false ∧
    executeImportJson envStd
      { bookmarks := [mkFileBookmark 0 1 0 0],
        collections := [{ id := "c1", name := "N", createdAt := 0,
                          workspaceId := none, order := 0 }], fresh := 1 }
      (Json.obj []) ImportMode.replace =
      { bookmarks := [mkFileBookmark 0 1 0 0],
        collections := [{ id := "c1", name := "N", createdAt := 0,
                          workspaceId := none, order := 0 }], fresh := 1 } :=
  ⟨rfl, C7_invalid_import_no_mutation envStd _ (Json.obj []) ImportMode.replace rfl⟩

/-- C1: evaluation of the reconciliation at a batch of two insertions both
above a bookmark at line 10 (shifts of two and one lines): the code moves
the bookmark by only the first change shift, to line 12, instead of the
accumulated net shift to line 13 = 10 + (2 + 1), and still reports two
updates; the second pending shift silently misses because the bookmark no
longer sits at its pre-edit line. -/
theorem C1_multi_change_shift_eval :
    ((updateBookmarksForDocumentChanges envStd
        { bookmarks := [mkFileBookmark 0 10 0 0], collections := [], fresh := 1 }
        "f" [{ startLine := 0, endLine := 0, text := "x\ny\nz" },
             { startLine := 2, endLine := 2, text := "a\nb" }]).1.bookmarks.map
      (fun b => b.line) = [12]) ∧
    (updateBookmarksForDocumentChanges envStd
        { bookmarks := [mkFileBookmark 0 10 0 0], collections := [], fresh := 1 }
        "f" [{ startLine := 0, endLine := 0, text := "x\ny\nz" },
             { startLine := 2, endLine := 2, text := "a\nb" }]).2 = (0, 2) ∧
    (12 : Int) ≠ 10 + (2 + 1) := by
  refine ⟨by decide, by decide, by decide⟩

/-- C10: evaluation at a single insertion of ten lines above bookmarks at
lines 10 and 20: the shift of the first bookmark lands on line 20 while
the second bookmark still occupies it, the re-add fails silently, no
bookmark exists at the target line afterwards, and the operation still
reports two updates. -/
theorem C10_shifted_bookmark_silently_lost :
    ((updateBookmarksForDocumentChanges envStd
        { bookmarks := [mkFileBookmark 0 10 0 0, mkFileBookmark 1 20 10 1],
          collections := [], fresh := 2 }
        "f" [{ startLine := 0, endLine := 0, text := "\n\n\n\n\n\n\n\n\n\n" }]).1.bookmarks.map
      (fun b => b.line) = [30]) ∧
    hasBookmark (updateBookmarksForDocumentChanges envStd
        { bookmarks := [mkFileBookmark 0 10 0 0, mkFileBookmark 1 20 10 1],
          collections := [], fresh := 2 }
        "f" [{ startLine := 0, endLine := 0, text := "\n\n\n\n\n\n\n\n\n\n" }]).1 "f" 20 = false ∧
    (updateBookmarksForDocumentChanges envStd
        { bookmarks := [mkFileBookmark 0 10 0 0, mkFileBookmark 1 20 10 1],
          collections := [], fresh := 2 }
        "f" [{ startLine := 0, endLine := 0, text := "\n\n\n\n\n\n\n\n\n\n" }]).2 = (0, 2) := by
  refine ⟨by decide, by decide, by decide⟩

/-- C3 counterexample: for the single insertion of two lines at line zero
and bookmarks at lines 1 and 3, the claim puts the first bookmark at line
3 = 1 + 2; the code loses it instead, because line 3 is still occupied by
the other bookmark when the shift is applied. -/
theorem C3_single_change_counterexample :
    ((updateBookmarksForDocumentChanges envStd
        { bookmarks := [mkFileBookmark 0 1 0 0, mkFileBookmark 1 3 10 1],
          collections := [], fresh := 2 }
        "f" [{ startLine := 0, endLine := 0, text := "\n\n" }]).1.bookmarks.map
      (fun b => b.line) = [5]) ∧
    hasBookmark (updateBookmarksForDocumentChanges envStd
        { bookmarks := [mkFileBookmark 0 1 0 0, mkFileBookmark 1 3 10 1],
          collections := [], fresh := 2 }
        "f" [{ startLine := 0, endLine := 0, text := "\n\n" }]).1 "f" 3 = false := by
  refine ⟨by decide, by decide⟩

/-- C4 counterexample: after a successful bookmark move inside a
two-element collection, the sorted order values are 0 and 10, not the
claimed 0 and 1. -/
theorem C4_bookmark_orders_counterexample :
    (moveBookmarkUp
        { bookmarks := [mkFileBookmark 0 1 0 0, mkFileBookmark 1 2 10 1],
          collections := [], fresh := 2 } "f" 2).2 = true ∧
    ((bookmarkScopeOrders (moveBookmarkUp
        { bookmarks := [mkFileBookmark 0 1 0 0, mkFileBookmark 1 2 10 1],
          collections := [], fresh := 2 } "f" 2).1 "c1").insertionSort (· ≤ ·) = [0, 10]) ∧
    ([0, 10] : List Int) ≠ (List.range 2).map (fun i => (i : Int)) := by
  refine ⟨by decide, by decide, by decide⟩

/-- C6 counterexample: adding a bookmark with an explicit collection id
that names no existing collection succeeds and stores the dangling
reference; no collection is created or required to exist. -/
theorem C6_dangling_collection_counterexample :
    ((addBookmark envStd (emptyState 0) "f" 1 (some "missing") none).2.map
      (fun b => b.collectionId)) = some (some "missing") ∧
    getCollection (addBookmark envStd (emptyState 0) "f" 1 (some "missing") none).1
      "missing" = none ∧
    (addBookmark envStd (emptyState 0) "f" 1 (some "missing") none).1.collections = [] := by
  refine ⟨by decide, by decide, by decide⟩

theorem ensureUngrouped_collections_superset (st : ManagerState) (w : Option String)
    (c : Collection) (hc : c ∈ st.collections) :
    c ∈ (ensureUngroupedCollection st w).1.collections := by
  cases h : st.collections.find?
      (fun c => c.id == "ungrouped-bookmarks" && c.workspaceId == normalizeWorkspaceId w) with
  | some c0 =>
    rw [ensureUngrouped_of_find_some st w c0 h]
    exact hc
  | none =>
    rw [ensureUngrouped_of_find_none st w h]
    exact List.mem_append_left _ hc

theorem addTargetState_collections_superset (env : Env) (st : ManagerState)
    (cid : Option String) (c : Collection) (hc : c ∈ st.collections) :
    c ∈ (addTargetState env st cid).collections := by
  unfold addTargetState
  split
  · exact ensureUngrouped_collections_superset st env.workspaceFolder c hc
  · exact hc

/-- C6 (amended): whenever `addBookmark` succeeds and the add resolved to
the ungrouped sentinel (no collection given, an empty id, or the sentinel
itself), the new bookmark references a collection existing in the
resulting state; and for any resolved collection id that already named an
existing collection, that reference also exists afterwards. An explicit
id of a missing collection is stored unvalidated (see the
counterexample). -/
theorem C6_collection_reference_amended (env : Env) (st : ManagerState) (uri : String)
    (line : Int) (cid desc : Option String) (b : Bookmark)
    (hb : (addBookmark env st uri line cid desc).2 = some b) :
    (jsOrStr cid "ungrouped-bookmarks" = "ungrouped-bookmarks" →
      ∃ c ∈ (addBookmark env st uri line cid desc).1.collections,
        some c.id = b.collectionId) ∧
    ((∃ c ∈ st.collections, c.id = jsOrStr cid "ungrouped-bookmarks") →
      ∃ c ∈ (addBookmark env st uri line cid desc).1.collections,
        some c.id = b.collectionId) := by
  cases hf : st.bookmarks.find? (fun b => b.uri == uri && b.line == line) with
  | some b0 =>
    rw [addBookmark_of_find_some env st uri line cid desc b0 hf] at hb
    exact Option.noConfusion hb
  | none =>
    by_cases hm : env.maxBookmarksPerFile ≤
        ((st.bookmarks.filter (fun b => b.uri == uri)).length : Int)
    · rw [addBookmark_of_full env st uri line cid desc hf hm] at hb
      exact Option.noConfusion hb
    · rw [addBookmark_of_ok env st uri line cid desc hf hm] at hb ⊢
      have hb2 := Option.some.inj hb
      constructor
      · intro hres
        refine ⟨(ensureUngroupedCollection st env.workspaceFolder).2, ?_, ?_⟩
        · show _ ∈ (addTargetState env st cid).collections
          unfold addTargetState
          rw [if_pos hres]
          exact ensureUngrouped_mem st env.workspaceFolder
        · rw [ensureUngrouped_snd_id, ← hb2]
          show _ = (addNewBookmark env st uri line cid desc).collectionId
          unfold addNewBookmark
          rw [hres]
      · rintro ⟨c, hc, hcid⟩
        refine ⟨c, ?_, ?_⟩
        · exact addTargetState_collections_superset env st cid c hc
        · rw [hcid, ← hb2]
          rfl

/-- Witness for C6 at a concrete add with no explicit collection: the new
bookmark references the lazily created ungrouped collection. -/
theorem C6_collection_reference_amended_witness :
    ∃ c ∈ (addBookmark envStd (emptyState 0) "f" 1 none none).1.collections,
      some c.id = (addNewBookmark envStd (emptyState 0) "f" 1 none none).collectionId :=
  (C6_collection_reference_amended envStd (emptyState 0) "f" 1 none none
    (addNewBookmark envStd (emptyState 0) "f" 1 none none) (by decide)).1 rfl

/-- C2 counterexample: exporting a state with one bookmark (id 5) and
importing the result in merge mode into an empty state regenerates the
bookmark id (the export format carries no bookmark id), so ids are not
kept verbatim. -/
theorem C2_bookmark_id_counterexample :
    ((importBookmarks envWs (emptyState 0)
        (exportBookmarks envWs
          { bookmarks := [{ id := 5, uri := "file:///ws/a.ts", line := 1,
                            collectionId := some "c1", description := "d",
                            createdAt := 3, order := 7 }],
            collections := [{ id := "c1", name := "N", createdAt := 2,
                              workspaceId := some "ws", order := 0 }], fresh := 6 })
        ImportMode.merge).bookmarks.map (fun b => b.id)) = [1] ∧
    ([1] : List Nat) ≠ [5] := by
  refine ⟨by decide, by decide⟩

/-! Generic machinery for the order-renormalisation proofs: assigning each
element its rank in a sorted copy yields exactly the scaled ranks
0, k, 2k, … as the scope orders. -/

theorem map_findIdx_self {κ : Type} [BEq κ] [LawfulBEq κ] (ys : List κ) (hnd : ys.Nodup) :
    ys.map (fun i => (List.findIdx? (fun a => a == i) ys).getD 0) = List.range ys.length := by
  induction ys with
  | nil => rfl
  | cons y t ih =>
    have hnd2 := List.nodup_cons.mp hnd
    simp only [List.map_cons, List.length_cons, List.range_succ_eq_map]
    congr 1
    · rw [List.findIdx?_cons]
      simp
    · rw [← ih hnd2.2, List.map_map]
      apply List.map_congr_left
      intro i hi
      have hne : (y == i) = false := by
        rw [beq_eq_false_iff_ne]
        intro h
        exact hnd2.1 (h ▸ hi)
      have hsome : (List.findIdx? (fun a => a == i) t).isSome = true := by
        rw [List.findIdx?_isSome]
        exact List.any_eq_true.mpr ⟨i, hi, by simp⟩
      obtain ⟨j, hj⟩ := Option.isSome_iff_exists.mp hsome
      rw [List.findIdx?_cons, if_neg (by simp [hne]), List.findIdx?_succ, hj]
      simp [hj]

theorem filter_map_of_pres {α : Type} (p : α → Bool) (F : α → α)
    (hpF : ∀ c, p (F c) = p c) (l : List α) :
    (l.map F).filter p = (l.filter p).map F := by
  induction l with
  | nil => rfl
  | cons c t ih =>
    simp only [List.map_cons, List.filter_cons, hpF]
    cases hp : p c with
    | false => simpa using ih
    | true => simp [ih]

theorem renorm_core {α κ : Type} [BEq κ] [LawfulBEq κ]
    (key : α → κ) (getOrd : α → Int) (p : α → Bool)
    (F : α → α) (l : List α) (sorted2 : List α) (k : Int)
    (hpF : ∀ c, p (F c) = p c)
    (hFord : ∀ c ∈ l.filter p,
      getOrd (F c) = Int.ofNat ((sorted2.findIdx? (fun y => key y == key c)).getD 0) * k)
    (hperm : (sorted2.map key).Perm ((l.filter p).map key))
    (hnodupf : ((l.filter p).map key).Nodup) :
    (((l.map F).filter p).map getOrd).Perm
      ((List.range (l.filter p).length).map (fun i => Int.ofNat i * k)) := by
  rw [filter_map_of_pres p F hpF l, List.map_map]
  have h1 : (l.filter p).map (getOrd ∘ F) =
      (l.filter p).map
        (fun c => Int.ofNat ((sorted2.findIdx? (fun y => key y == key c)).getD 0) * k) :=
    List.map_congr_left (fun c hc => hFord c hc)
  have h2 : (l.filter p).map
      (fun c => Int.ofNat ((sorted2.findIdx? (fun y => key y == key c)).getD 0) * k) =
      (((l.filter p).map key).map
        (fun i => ((sorted2.map key).findIdx? (fun a => a == i)).getD 0)).map
        (fun j => Int.ofNat j * k) := by
    rw [List.map_map, List.map_map]
    apply List.map_congr_left
    intro c hc
    have hidx : (List.findIdx? (fun a => a == key c) (sorted2.map key)) =
        List.findIdx? (fun y => key y == key c) sorted2 := by
      rw [List.findIdx?_map]
      rfl
    simp only [Function.comp]
    rw [hidx]
  rw [h1, h2]
  have hysnd : ((sorted2.map key)).Nodup := hperm.symm.nodup hnodupf
  have h3 : (((l.filter p).map key).map
      (fun i => ((sorted2.map key).findIdx? (fun a => a == i)).getD 0)).Perm
      ((sorted2.map key).map
        (fun i => ((sorted2.map key).findIdx? (fun a => a == i)).getD 0)) :=
    List.Perm.map _ hperm.symm
  have h4 := map_findIdx_self (sorted2.map key) hysnd
  have hlen : (sorted2.map key).length = (l.filter p).length := by
    have := hperm.length_eq
    simpa using this
  have h5 : (((sorted2.map key)).map
      (fun i => ((sorted2.map key).findIdx? (fun a => a == i)).getD 0)).map
      (fun j => Int.ofNat j * k) =
      (List.range (l.filter p).length).map (fun i => Int.ofNat i * k) := by
    rw [h4, hlen]
  exact (List.Perm.map _ h3).trans (h5 ▸ List.Perm.refl _)

theorem sorted_orders_from_perm (xs : List Int) (n : Nat) (k : Int) (hk : 0 ≤ k)
    (h : xs.Perm ((List.range n).map (fun i => Int.ofNat i * k))) :
    xs.insertionSort (· ≤ ·) = (List.range n).map (fun i => Int.ofNat i * k) := by
  have hs1 : List.Sorted (· ≤ ·) (xs.insertionSort (· ≤ ·)) :=
    List.sorted_insertionSort _ xs
  have hs2 : List.Sorted (· ≤ ·) ((List.range n).map (fun i => Int.ofNat i * k)) := by
    show List.Pairwise _ _
    rw [List.pairwise_map]
    apply (List.pairwise_lt_range n).imp
    intro a b hab
    have hle : Int.ofNat a ≤ Int.ofNat b := Int.ofNat_le.mpr (Nat.le_of_lt hab)
    exact mul_le_mul_of_nonneg_right hle hk
  exact List.eq_of_perm_of_sorted ((List.perm_insertionSort _ xs).trans h) hs1 hs2

theorem collectionSwapOrd_id (cid : String) (o col c : Collection) :
    (collectionSwapOrd cid o col c).id = c.id := by
  unfold collectionSwapOrd
  split
  · rfl
  · split
    · rfl
    · rfl

theorem collectionSwapOrd_ws (cid : String) (o col c : Collection) :
    (collectionSwapOrd cid o col c).workspaceId = c.workspaceId := by
  unfold collectionSwapOrd
  split
  · rfl
  · split
    · rfl
    · rfl

theorem collectionRenorm_ws (s2 : List Collection) (c : Collection) :
    (collectionRenorm s2 c).workspaceId = c.workspaceId := by
  unfold collectionRenorm
  split
  · rfl
  · rfl

theorem collection_map_renorm_orders (l : List Collection) (ws : Option String)
    (swap : Collection → Collection) (sorted2 : List Collection)
    (hswap_id : ∀ c, (swap c).id = c.id)
    (hswap_ws : ∀ c, (swap c).workspaceId = c.workspaceId)
    (hperm : (sorted2.map (fun c => c.id)).Perm
      ((l.filter (fun c => c.workspaceId == ws)).map (fun c => c.id)))
    (hnodup : (l.map (fun c => c.id)).Nodup) :
    (((l.map (fun c =>
        if c.workspaceId == ws then collectionRenorm sorted2 (swap c) else c)).filter
        (fun c => c.workspaceId == ws)).map (fun c => c.order)).Perm
      ((List.range (l.filter (fun c => c.workspaceId == ws)).length).map
        (fun i => Int.ofNat i * 1)) := by
  apply renorm_core (fun c => c.id) (fun c => c.order) (fun c => c.workspaceId == ws)
    _ l sorted2 1
  · intro c
    cases hc : (c.workspaceId == ws) with
    | false => simp [hc]
    | true => simp [hc, collectionRenorm_ws, hswap_ws]
  · intro c hc
    have hcp : (c.workspaceId == ws) = true := (List.mem_filter.mp hc).2
    have hmemid : c.id ∈ sorted2.map (fun c => c.id) :=
      hperm.mem_iff.mpr (List.mem_map.mpr ⟨c, hc, rfl⟩)
    obtain ⟨x, hx, hxid⟩ := List.mem_map.mp hmemid
    have hsome : (sorted2.findIdx? (fun y => y.id == c.id)).isSome = true := by
      rw [List.findIdx?_isSome]
      exact List.any_eq_true.mpr ⟨x, hx, by simp [hxid]⟩
    obtain ⟨j, hj⟩ := Option.isSome_iff_exists.mp hsome
    simp only [hcp, if_pos]
    unfold collectionRenorm
    have hpred : (fun (x : Collection) => x.id == (swap c).id) =
        (fun (x : Collection) => x.id == c.id) := by
      rw [hswap_id]
    rw [hpred, hj]
    simp
  · exact hperm
  · exact List.Nodup.sublist (List.Sublist.map _ (List.filter_sublist l)) hnodup

theorem moveCollectionUp_success_eq (st : ManagerState) (cid : String)
    (collection : Collection) (i : Nat) (prev : Collection)
    (hget : getCollection st cid = some collection)
    (hidx : (collectionSiblingsSorted st collection.workspaceId).findIdx?
      (fun c => c.id == cid) = some (i + 1))
    (hprev : (collectionSiblingsSorted st collection.workspaceId)[i]? = some prev) :
    moveCollectionUp st cid =
      ({ st with collections := st.collections.map (fun c =>
          if c.workspaceId == collection.workspaceId then
            collectionRenorm
              (((collectionSiblingsSorted st collection.workspaceId).map
                (collectionSwapOrd cid prev collection)).insertionSort
                (fun a b => a.order ≤ b.order))
              (collectionSwapOrd cid prev collection c)
          else c) }, true) := by
  unfold moveCollectionUp
  simp only [hget, hidx, hprev]

theorem moveCollectionUp_success_inv (st : ManagerState) (cid : String)
    (hsucc : (moveCollectionUp st cid).2 = true) :
    ∃ collection i prev, getCollection st cid = some collection ∧
      (collectionSiblingsSorted st collection.workspaceId).findIdx?
        (fun c => c.id == cid) = some (i + 1) ∧
      (collectionSiblingsSorted st collection.workspaceId)[i]? = some prev := by
  unfold moveCollectionUp at hsucc
  cases hget : getCollection st cid with
  | none => simp [hget] at hsucc
  | some collection =>
    simp only [hget] at hsucc
    cases hidx : (collectionSiblingsSorted st collection.workspaceId).findIdx?
        (fun c => c.id == cid) with
    | none => simp [hidx] at hsucc
    | some idx =>
      simp only [hidx] at hsucc
      cases idx with
      | zero => simp at hsucc
      | succ i =>
        cases hprev : (collectionSiblingsSorted st collection.workspaceId)[i]? with
        | none => simp [hprev] at hsucc
        | some prev => exact ⟨collection, i, prev, rfl, hidx, hprev⟩

theorem moveCollectionDown_success_eq (st : ManagerState) (cid : String)
    (collection : Collection) (i : Nat) (next : Collection)
    (hget : getCollection st cid = some collection)
    (hidx : (collectionSiblingsSorted st collection.workspaceId).findIdx?
      (fun c => c.id == cid) = some i)
    (hnext : (collectionSiblingsSorted st collection.workspaceId)[i + 1]? = some next) :
    moveCollectionDown st cid =
      ({ st with collections := st.collections.map (fun c =>
          if c.workspaceId == collection.workspaceId then
            collectionRenorm
              (((collectionSiblingsSorted st collection.workspaceId).map
                (collectionSwapOrd cid next collection)).insertionSort
                (fun a b => a.order ≤ b.order))
              (collectionSwapOrd cid next collection c)
          else c) }, true) := by
  unfold moveCollectionDown
  simp only [hget, hidx, hnext]

theorem moveCollectionDown_success_inv (st : ManagerState) (cid : String)
    (hsucc : (moveCollectionDown st cid).2 = true) :
    ∃ collection i next, getCollection st cid = some collection ∧
      (collectionSiblingsSorted st collection.workspaceId).findIdx?
        (fun c => c.id == cid) = some i ∧
      (collectionSiblingsSorted st collection.workspaceId)[i + 1]? = some next := by
  unfold moveCollectionDown at hsucc
  cases hget : getCollection st cid with
  | none => simp [hget] at hsucc
  | some collection =>
    simp only [hget] at hsucc
    cases hidx : (collectionSiblingsSorted st collection.workspaceId).findIdx?
        (fun c => c.id == cid) with
    | none => simp [hidx] at hsucc
    | some idx =>
      simp only [hidx] at hsucc
      cases hnext : (collectionSiblingsSorted st collection.workspaceId)[idx + 1]? with
      | none => simp [hnext] at hsucc
      | some next => exact ⟨collection, idx, next, rfl, hidx, hnext⟩

theorem collectionSorted2_ids_perm (st : ManagerState) (ws : Option String)
    (swap : Collection → Collection) (hswap_id : ∀ c, (swap c).id = c.id) :
    ((((collectionSiblingsSorted st ws).map swap).insertionSort
        (fun a b => a.order ≤ b.order)).map (fun c => c.id)).Perm
      ((st.collections.filter (fun c => c.workspaceId == ws)).map (fun c => c.id)) := by
  have h1 := List.perm_insertionSort (fun (a b : Collection) => a.order ≤ b.order)
    ((collectionSiblingsSorted st ws).map swap)
  have h2 := List.perm_insertionSort (fun (a b : Collection) => a.order ≤ b.order)
    (st.collections.filter (fun c => c.workspaceId == ws))
  have h3 : (((collectionSiblingsSorted st ws).map swap).map (fun c => c.id)) =
      (collectionSiblingsSorted st ws).map (fun c => c.id) := by
    rw [List.map_map]
    exact List.map_congr_left (fun c _ => hswap_id c)
  refine (List.Perm.map _ h1).trans ?_
  rw [h3]
  exact List.Perm.map _ h2

theorem moveCollectionUp_orders (st : ManagerState) (cid : String) (collection : Collection)
    (hnodup : (st.collections.map (fun c => c.id)).Nodup)
    (hget : getCollection st cid = some collection)
    (hsucc : (moveCollectionUp st cid).2 = true) :
    (collectionScopeOrders (moveCollectionUp st cid).1
        collection.workspaceId).insertionSort (· ≤ ·) =
      (List.range (collectionScopeOrders st collection.workspaceId).length).map
        Int.ofNat := by
  obtain ⟨collection2, i, prev, hget2, hidx, hprev⟩ := moveCollectionUp_success_inv st cid hsucc
  have heq : collection = collection2 := Option.some.inj (hget.symm.trans hget2)
  subst heq
  rw [moveCollectionUp_success_eq st cid collection i prev hget2 hidx hprev]
  have hperm := collectionSorted2_ids_perm st collection.workspaceId
    (collectionSwapOrd cid prev collection) (collectionSwapOrd_id cid prev collection)
  have hcore := collection_map_renorm_orders st.collections collection.workspaceId
    (collectionSwapOrd cid prev collection)
    (((collectionSiblingsSorted st collection.workspaceId).map
      (collectionSwapOrd cid prev collection)).insertionSort (fun a b => a.order ≤ b.order))
    (collectionSwapOrd_id cid prev collection) (collectionSwapOrd_ws cid prev collection)
    hperm hnodup
  have hlen : (collectionScopeOrders st collection.workspaceId).length =
      (st.collections.filter (fun c => c.workspaceId == collection.workspaceId)).length := by
    unfold collectionScopeOrders
    rw [List.length_map]
  have hconv : (List.range (st.collections.filter
        (fun c => c.workspaceId == collection.workspaceId)).length).map
        (fun i => Int.ofNat i * 1) =
      (List.range (st.collections.filter
        (fun c => c.workspaceId == collection.workspaceId)).length).map Int.ofNat :=
    List.map_congr_left (fun i _ => mul_one _)
  rw [hlen, ← hconv]
  exact sorted_orders_from_perm _ _ 1 (by norm_num) hcore

theorem moveCollectionDown_orders (st : ManagerState) (cid : String)
    (collection : Collection)
    (hnodup : (st.collections.map (fun c => c.id)).Nodup)
    (hget : getCollection st cid = some collection)
    (hsucc : (moveCollectionDown st cid).2 = true) :
    (collectionScopeOrders (moveCollectionDown st cid).1
        collection.workspaceId).insertionSort (· ≤ ·) =
      (List.range (collectionScopeOrders st collection.workspaceId).length).map
        Int.ofNat := by
  obtain ⟨collection2, i, next, hget2, hidx, hnext⟩ := moveCollectionDown_success_inv st cid hsucc
  have heq : collection = collection2 := Option.some.inj (hget.symm.trans hget2)
  subst heq
  rw [moveCollectionDown_success_eq st cid collection i next hget2 hidx hnext]
  have hperm := collectionSorted2_ids_perm st collection.workspaceId
    (collectionSwapOrd cid next collection) (collectionSwapOrd_id cid next collection)
  have hcore := collection_map_renorm_orders st.collections collection.workspaceId
    (collectionSwapOrd cid next collection)
    (((collectionSiblingsSorted st collection.workspaceId).map
      (collectionSwapOrd cid next collection)).insertionSort (fun a b => a.order ≤ b.order))
    (collectionSwapOrd_id cid next collection) (collectionSwapOrd_ws cid next collection)
    hperm hnodup
  have hlen : (collectionScopeOrders st collection.workspaceId).length =
      (st.collections.filter (fun c => c.workspaceId == collection.workspaceId)).length := by
    unfold collectionScopeOrders
    rw [List.length_map]
  have hconv : (List.range (st.collections.filter
        (fun c => c.workspaceId == collection.workspaceId)).length).map
        (fun i => Int.ofNat i * 1) =
      (List.range (st.collections.filter
        (fun c => c.workspaceId == collection.workspaceId)).length).map Int.ofNat :=
    List.map_congr_left (fun i _ => mul_one _)
  rw [hlen, ← hconv]
  exact sorted_orders_from_perm _ _ 1 (by norm_num) hcore

theorem bookmarkSwapOrd_uri (uri : String) (line : Int) (o bk b : Bookmark) :
    (bookmarkSwapOrd uri line o bk b).uri = b.uri := by
  unfold bookmarkSwapOrd
  split
  · rfl
  · split
    · rfl
    · rfl

theorem bookmarkSwapOrd_line (uri : String) (line : Int) (o bk b : Bookmark) :
    (bookmarkSwapOrd uri line o bk b).line = b.line := by
  unfold bookmarkSwapOrd
  split
  · rfl
  · split
    · rfl
    · rfl

theorem bookmarkSwapOrd_cid (uri : String) (line : Int) (o bk b : Bookmark) :
    (bookmarkSwapOrd uri line o bk b).collectionId = b.collectionId := by
  unfold bookmarkSwapOrd
  split
  · rfl
  · split
    · rfl
    · rfl

theorem bookmarkRenorm_cid (s2 : List Bookmark) (b : Bookmark) :
    (bookmarkRenorm s2 b).collectionId = b.collectionId := by
  unfold bookmarkRenorm
  split
  · rfl
  · rfl

theorem bookmark_map_renorm_orders (l : List Bookmark) (cid : String)
    (swap : Bookmark → Bookmark) (sorted2 : List Bookmark)
    (hswap_uri : ∀ b, (swap b).uri = b.uri)
    (hswap_line : ∀ b, (swap b).line = b.line)
    (hswap_cid : ∀ b, (swap b).collectionId = b.collectionId)
    (hperm : (sorted2.map (fun b => (b.uri, b.line))).Perm
      ((l.filter (fun b => b.collectionId == some cid)).map (fun b => (b.uri, b.line))))
    (hnodup : (l.map (fun b => (b.uri, b.line))).Nodup) :
    (((l.map (fun b =>
        if b.collectionId == some cid then bookmarkRenorm sorted2 (swap b) else b)).filter
        (fun b => b.collectionId == some cid)).map (fun b => b.order)).Perm
      ((List.range (l.filter (fun b => b.collectionId == some cid)).length).map
        (fun i => Int.ofNat i * 10)) := by
  apply renorm_core (fun b => (b.uri, b.line)) (fun b => b.order)
    (fun b => b.collectionId == some cid) _ l sorted2 10
  · intro b
    cases hb : (b.collectionId == some cid) with
    | false => simp [hb]
    | true => simp [hb, bookmarkRenorm_cid, hswap_cid]
  · intro c hc
    have hcp : (c.collectionId == some cid) = true := (List.mem_filter.mp hc).2
    have hmemkey : (c.uri, c.line) ∈ sorted2.map (fun b => (b.uri, b.line)) :=
      hperm.mem_iff.mpr (List.mem_map.mpr ⟨c, hc, rfl⟩)
    obtain ⟨x, hx, hxkey⟩ := List.mem_map.mp hmemkey
    have hsome : (sorted2.findIdx?
        (fun y => (y.uri, y.line) == (c.uri, c.line))).isSome = true := by
      rw [List.findIdx?_isSome]
      exact List.any_eq_true.mpr ⟨x, hx, by simp [hxkey]⟩
    obtain ⟨j, hj⟩ := Option.isSome_iff_exists.mp hsome
    simp only [hcp, if_pos]
    unfold bookmarkRenorm
    have hpred : (fun (x : Bookmark) => x.uri == (swap c).uri && x.line == (swap c).line) =
        (fun (y : Bookmark) => (y.uri, y.line) == (c.uri, c.line)) := by
      rw [hswap_uri, hswap_line]
      exact rfl
    rw [hpred, hj]
    simp
  · exact hperm
  · exact List.Nodup.sublist (List.Sublist.map _ (List.filter_sublist l)) hnodup

theorem bookmarkSorted2_keys_perm (st : ManagerState) (cid : String)
    (swap : Bookmark → Bookmark)
    (hswap_uri : ∀ b, (swap b).uri = b.uri)
    (hswap_line : ∀ b, (swap b).line = b.line) :
    ((((getBookmarksByCollection st cid).map swap).insertionSort
        (fun a b => a.order ≤ b.order)).map (fun b => (b.uri, b.line))).Perm
      ((st.bookmarks.filter (fun b => b.collectionId == some cid)).map
        (fun b => (b.uri, b.line))) := by
  have h1 := List.perm_insertionSort (fun (a b : Bookmark) => a.order ≤ b.order)
    ((getBookmarksByCollection st cid).map swap)
  have h2 := List.perm_insertionSort bkLe
    (st.bookmarks.filter (fun b => b.collectionId == some cid))
  have h3 : (((getBookmarksByCollection st cid).map swap).map (fun b => (b.uri, b.line))) =
      (getBookmarksByCollection st cid).map (fun b => (b.uri, b.line)) := by
    rw [List.map_map]
    exact List.map_congr_left (fun b _ => by simp [Function.comp, hswap_uri, hswap_line])
  refine (List.Perm.map _ h1).trans ?_
  rw [h3]
  exact List.Perm.map _ h2

theorem moveBookmarkUp_success_eq (st : ManagerState) (uri : String) (line : Int)
    (bookmark : Bookmark) (cid : String) (i : Nat) (prev : Bookmark)
    (hfind : st.bookmarks.find? (fun b => b.uri == uri && b.line == line) = some bookmark)
    (hcid : bookmark.collectionId = some cid)
    (hne : ¬ cid = "")
    (hidx : (getBookmarksByCollection st cid).findIdx?
      (fun b => b.uri == uri && b.line == line) = some (i + 1))
    (hprev : (getBookmarksByCollection st cid)[i]? = some prev) :
    moveBookmarkUp st uri line =
      ({ st with bookmarks := st.bookmarks.map (fun b =>
          if b.collectionId == some cid then
            bookmarkRenorm
              (((getBookmarksByCollection st cid).map
                (bookmarkSwapOrd uri line prev bookmark)).insertionSort
                (fun a b => a.order ≤ b.order))
              (bookmarkSwapOrd uri line prev bookmark b)
          else b) }, true) := by
  unfold moveBookmarkUp
  simp only [hfind, hcid, if_neg hne, hidx, hprev]

theorem moveBookmarkUp_success_inv (st : ManagerState) (uri : String) (line : Int)
    (hsucc : (moveBookmarkUp st uri line).2 = true) :
    ∃ bookmark cid i prev,
      st.bookmarks.find? (fun b => b.uri == uri && b.line == line) = some bookmark ∧
      bookmark.collectionId = some cid ∧ ¬ cid = "" ∧
      (getBookmarksByCollection st cid).findIdx?
        (fun b => b.uri == uri && b.line == line) = some (i + 1) ∧
      (getBookmarksByCollection st cid)[i]? = some prev := by
  unfold moveBookmarkUp at hsucc
  cases hfind : st.bookmarks.find? (fun b => b.uri == uri && b.line == line) with
  | none => simp [hfind] at hsucc
  | some bookmark =>
    simp only [hfind] at hsucc
    cases hcid : bookmark.collectionId with
    | none => simp [hcid] at hsucc
    | some cid =>
      simp only [hcid] at hsucc
      by_cases hne : cid = ""
      · rw [if_pos hne] at hsucc
        simp at hsucc
      · rw [if_neg hne] at hsucc
        cases hidx : (getBookmarksByCollection st cid).findIdx?
            (fun b => b.uri == uri && b.line == line) with
        | none => simp [hidx] at hsucc
        | some idx =>
          simp only [hidx] at hsucc
          cases idx with
          | zero => simp at hsucc
          | succ i =>
            cases hprev : (getBookmarksByCollection st cid)[i]? with
            | none => simp [hprev] at hsucc
            | some prev => exact ⟨bookmark, cid, i, prev, rfl, hcid, hne, hidx, hprev⟩

theorem moveBookmarkDown_success_eq (st : ManagerState) (uri : String) (line : Int)
    (bookmark : Bookmark) (cid : String) (i : Nat) (next : Bookmark)
    (hfind : st.bookmarks.find? (fun b => b.uri == uri && b.line == line) = some bookmark)
    (hcid : bookmark.collectionId = some cid)
    (hne : ¬ cid = "")
    (hidx : (getBookmarksByCollection st cid).findIdx?
      (fun b => b.uri == uri && b.line == line) = some i)
    (hnext : (getBookmarksByCollection st cid)[i + 1]? = some next) :
    moveBookmarkDown st uri line =
      ({ st with bookmarks := st.bookmarks.map (fun b =>
          if b.collectionId == some cid then
            bookmarkRenorm
              (((getBookmarksByCollection st cid).map
                (bookmarkSwapOrd uri line next bookmark)).insertionSort
                (fun a b => a.order ≤ b.order))
              (bookmarkSwapOrd uri line next bookmark b)
          else b) }, true) := by
  unfold moveBookmarkDown
  simp only [hfind, hcid, if_neg hne, hidx, hnext]

theorem moveBookmarkDown_success_inv (st : ManagerState) (uri : String) (line : Int)
    (hsucc : (moveBookmarkDown st uri line).2 = true) :
    ∃ bookmark cid i next,
      st.bookmarks.find? (fun b => b.uri == uri && b.line == line) = some bookmark ∧
      bookmark.collectionId = some cid ∧ ¬ cid = "" ∧
      (getBookmarksByCollection st cid).findIdx?
        (fun b => b.uri == uri && b.line == line) = some i ∧
      (getBookmarksByCollection st cid)[i + 1]? = some next := by
  unfold moveBookmarkDown at hsucc
  cases hfind : st.bookmarks.find? (fun b => b.uri == uri && b.line == line) with
  | none => simp [hfind] at hsucc
  | some bookmark =>
    simp only [hfind] at hsucc
    cases hcid : bookmark.collectionId with
    | none => simp [hcid] at hsucc
    | some cid =>
      simp only [hcid] at hsucc
      by_cases hne : cid = ""
      · rw [if_pos hne] at hsucc
        simp at hsucc
      · rw [if_neg hne] at hsucc
        cases hidx : (getBookmarksByCollection st cid).findIdx?
            (fun b => b.uri == uri && b.line == line) with
        | none => simp [hidx] at hsucc
        | some idx =>
          simp only [hidx] at hsucc
          cases hnext : (getBookmarksByCollection st cid)[idx + 1]? with
          | none => simp [hnext] at hsucc
          | some next => exact ⟨bookmark, cid, idx, next, rfl, hcid, hne, hidx, hnext⟩

theorem moveBookmarkUp_orders (st : ManagerState) (uri : String) (line : Int)
    (bookmark : Bookmark) (cid : String)
    (hnodup : (st.bookmarks.map (fun b => (b.uri, b.line))).Nodup)
    (hfind : getBookmark st uri line = some bookmark)
    (hcid : bookmark.collectionId = some cid)
    (hsucc : (moveBookmarkUp st uri line).2 = true) :
    (bookmarkScopeOrders (moveBookmarkUp st uri line).1 cid).insertionSort (· ≤ ·) =
      (List.range (bookmarkScopeOrders st cid).length).map (fun i => Int.ofNat i * 10) := by
  obtain ⟨bookmark2, cid2, i, prev, hfind2, hcid2, hne, hidx, hprev⟩ :=
    moveBookmarkUp_success_inv st uri line hsucc
  have heqb : bookmark = bookmark2 := Option.some.inj (hfind.symm.trans hfind2)
  subst heqb
  have heqc : cid = cid2 := Option.some.inj (hcid.symm.trans hcid2)
  subst heqc
  rw [moveBookmarkUp_success_eq st uri line bookmark cid i prev hfind2 hcid2 hne hidx hprev]
  have hperm := bookmarkSorted2_keys_perm st cid (bookmarkSwapOrd uri line prev bookmark)
    (bookmarkSwapOrd_uri uri line prev bookmark) (bookmarkSwapOrd_line uri line prev bookmark)
  have hcore := bookmark_map_renorm_orders st.bookmarks cid
    (bookmarkSwapOrd uri line prev bookmark)
    (((getBookmarksByCollection st cid).map
      (bookmarkSwapOrd uri line prev bookmark)).insertionSort (fun a b => a.order ≤ b.order))
    (bookmarkSwapOrd_uri uri line prev bookmark) (bookmarkSwapOrd_line uri line prev bookmark)
    (bookmarkSwapOrd_cid uri line prev bookmark) hperm hnodup
  have hlen : (bookmarkScopeOrders st cid).length =
      (st.bookmarks.filter (fun b => b.collectionId == some cid)).length := by
    unfold bookmarkScopeOrders
    rw [List.length_map]
  rw [hlen]
  exact sorted_orders_from_perm _ _ 10 (by norm_num) hcore

theorem moveBookmarkDown_orders (st : ManagerState) (uri : String) (line : Int)
    (bookmark : Bookmark) (cid : String)
    (hnodup : (st.bookmarks.map (fun b => (b.uri, b.line))).Nodup)
    (hfind : getBookmark st uri line = some bookmark)
    (hcid : bookmark.collectionId = some cid)
    (hsucc : (moveBookmarkDown st uri line).2 = true) :
    (bookmarkScopeOrders (moveBookmarkDown st uri line).1 cid).insertionSort (· ≤ ·) =
      (List.range (bookmarkScopeOrders st cid).length).map (fun i => Int.ofNat i * 10) := by
  obtain ⟨bookmark2, cid2, i, next, hfind2, hcid2, hne, hidx, hnext⟩ :=
    moveBookmarkDown_success_inv st uri line hsucc
  have heqb : bookmark = bookmark2 := Option.some.inj (hfind.symm.trans hfind2)
  subst heqb
  have heqc : cid = cid2 := Option.some.inj (hcid.symm.trans hcid2)
  subst heqc
  rw [moveBookmarkDown_success_eq st uri line bookmark cid i next hfind2 hcid2 hne hidx hnext]
  have hperm := bookmarkSorted2_keys_perm st cid (bookmarkSwapOrd uri line next bookmark)
    (bookmarkSwapOrd_uri uri line next bookmark) (bookmarkSwapOrd_line uri line next bookmark)
  have hcore := bookmark_map_renorm_orders st.bookmarks cid
    (bookmarkSwapOrd uri line next bookmark)
    (((getBookmarksByCollection st cid).map
      (bookmarkSwapOrd uri line next bookmark)).insertionSort (fun a b => a.order ≤ b.order))
    (bookmarkSwapOrd_uri uri line next bookmark) (bookmarkSwapOrd_line uri line next bookmark)
    (bookmarkSwapOrd_cid uri line next bookmark) hperm hnodup
  have hlen : (bookmarkScopeOrders st cid).length =
      (st.bookmarks.filter (fun b => b.collectionId == some cid)).length := by
    unfold bookmarkScopeOrders
    rw [List.length_map]
  rw [hlen]
  exact sorted_orders_from_perm _ _ 10 (by norm_num) hcore

theorem moveCollectionUp_fst_or (st : ManagerState) (cid : String) :
    (moveCollectionUp st cid).1 = st ∨ (moveCollectionUp st cid).2 = true := by
  unfold moveCollectionUp
  repeat' first
  | exact Or.inl rfl
  | exact Or.inr rfl
  | split
  | dsimp only

theorem moveCollectionDown_fst_or (st : ManagerState) (cid : String) :
    (moveCollectionDown st cid).1 = st ∨ (moveCollectionDown st cid).2 = true := by
  unfold moveCollectionDown
  repeat' first
  | exact Or.inl rfl
  | exact Or.inr rfl
  | split
  | dsimp only

theorem moveBookmarkUp_fst_or (st : ManagerState) (uri : String) (line : Int) :
    (moveBookmarkUp st uri line).1 = st ∨ (moveBookmarkUp st uri line).2 = true := by
  unfold moveBookmarkUp
  repeat' first
  | exact Or.inl rfl
  | exact Or.inr rfl
  | split
  | dsimp only

theorem moveBookmarkDown_fst_or (st : ManagerState) (uri : String) (line : Int) :
    (moveBookmarkDown st uri line).1 = st ∨ (moveBookmarkDown st uri line).2 = true := by
  unfold moveBookmarkDown
  repeat' first
  | exact Or.inl rfl
  | exact Or.inr rfl
  | split
  | dsimp only

theorem moveCollectionUp_fail_eq (st : ManagerState) (cid : String)
    (h : (moveCollectionUp st cid).2 = false) : (moveCollectionUp st cid).1 = st := by
  rcases moveCollectionUp_fst_or st cid with h1 | h1
  · exact h1
  · rw [h1] at h
    exact Bool.noConfusion h

theorem moveCollectionDown_fail_eq (st : ManagerState) (cid : String)
    (h : (moveCollectionDown st cid).2 = false) : (moveCollectionDown st cid).1 = st := by
  rcases moveCollectionDown_fst_or st cid with h1 | h1
  · exact h1
  · rw [h1] at h
    exact Bool.noConfusion h

theorem moveBookmarkUp_fail_eq (st : ManagerState) (uri : String) (line : Int)
    (h : (moveBookmarkUp st uri line).2 = false) : (moveBookmarkUp st uri line).1 = st := by
  rcases moveBookmarkUp_fst_or st uri line with h1 | h1
  · exact h1
  · rw [h1] at h
    exact Bool.noConfusion h

theorem moveBookmarkDown_fail_eq (st : ManagerState) (uri : String) (line : Int)
    (h : (moveBookmarkDown st uri line).2 = false) : (moveBookmarkDown st uri line).1 = st := by
  rcases moveBookmarkDown_fst_or st uri line with h1 | h1
  · exact h1
  · rw [h1] at h
    exact Bool.noConfusion h

/-- C4 (amended): immediately after any successful move operation, the
sorted order values of the affected scope are exactly the ranks — for
collections 0, 1, …, n−1, and for bookmarks the ranks scaled by ten,
0, 10, …, 10(n−1) — dense and duplicate-free in both cases, but not the
claimed 0 … n−1 for bookmarks (see the counterexample); and a move that
reports failure returns the manager state completely unchanged. -/
theorem C4_move_order_normalization_amended :
    (∀ st cid collection, (st.collections.map (fun c => c.id)).Nodup →
      getCollection st cid = some collection →
      (moveCollectionUp st cid).2 = true →
      (collectionScopeOrders (moveCollectionUp st cid).1
          collection.workspaceId).insertionSort (· ≤ ·) =
        (List.range (collectionScopeOrders st collection.workspaceId).length).map
          Int.ofNat) ∧
    (∀ st cid collection, (st.collections.map (fun c => c.id)).Nodup →
      getCollection st cid = some collection →
      (moveCollectionDown st cid).2 = true →
      (collectionScopeOrders (moveCollectionDown st cid).1
          collection.workspaceId).insertionSort (· ≤ ·) =
        (List.range (collectionScopeOrders st collection.workspaceId).length).map
          Int.ofNat) ∧
    (∀ st uri line bookmark cid,
      (st.bookmarks.map (fun b => (b.uri, b.line))).Nodup →
      getBookmark st uri line = some bookmark →
      bookmark.collectionId = some cid →
      (moveBookmarkUp st uri line).2 = true →
      (bookmarkScopeOrders (moveBookmarkUp st uri line).1 cid).insertionSort (· ≤ ·) =
        (List.range (bookmarkScopeOrders st cid).length).map
          (fun i => Int.ofNat i * 10)) ∧
    (∀ st uri line bookmark cid,
      (st.bookmarks.map (fun b => (b.uri, b.line))).Nodup →
      getBookmark st uri line = some bookmark →
      bookmark.collectionId = some cid →
      (moveBookmarkDown st uri line).2 = true →
      (bookmarkScopeOrders (moveBookmarkDown st uri line).1 cid).insertionSort (· ≤ ·) =
        (List.range (bookmarkScopeOrders st cid).length).map
          (fun i => Int.ofNat i * 10)) ∧
    (∀ st cid, (moveCollectionUp st cid).2 = false → (moveCollectionUp st cid).1 = st) ∧
    (∀ st cid, (moveCollectionDown st cid).2 = false → (moveCollectionDown st cid).1 = st) ∧
    (∀ st uri line, (moveBookmarkUp st uri line).2 = false →
      (moveBookmarkUp st uri line).1 = st) ∧
    (∀ st uri line, (moveBookmarkDown st uri line).2 = false →
      (moveBookmarkDown st uri line).1 = st) :=
  ⟨fun st cid collection h1 h2 h3 => moveCollectionUp_orders st cid collection h1 h2 h3,
   fun st cid collection h1 h2 h3 => moveCollectionDown_orders st cid collection h1 h2 h3,
   fun st uri line bookmark cid h1 h2 h3 h4 =>
     moveBookmarkUp_orders st uri line bookmark cid h1 h2 h3 h4,
   fun st uri line bookmark cid h1 h2 h3 h4 =>
     moveBookmarkDown_orders st uri line bookmark cid h1 h2 h3 h4,
   fun st cid h => moveCollectionUp_fail_eq st cid h,
   fun st cid h => moveCollectionDown_fail_eq st cid h,
   fun st uri line h => moveBookmarkUp_fail_eq st uri line h,
   fun st uri line h => moveBookmarkDown_fail_eq st uri line h⟩

/-- Witness for C4 at concrete two-element scopes: a collection move
renormalises the scope orders to 0, 1 and a bookmark move renormalises
them to 0, 10; moving the first collection up and the first bookmark up
both fail and leave the state unchanged. -/
theorem C4_move_order_normalization_amended_witness :
    ((collectionScopeOrders (moveCollectionUp
        { bookmarks := [],
          collections := [{ id := "a", name := "A", createdAt := 0,
                            workspaceId := some "ws", order := 0 },
                          { id := "b", name := "B", createdAt := 1,
                            workspaceId := some "ws", order := 2 }], fresh := 2 }
        "b").1 (some "ws")).insertionSort (· ≤ ·) =
      (List.range 2).map Int.ofNat) ∧
    ((bookmarkScopeOrders (moveBookmarkUp
        { bookmarks := [mkFileBookmark 0 1 0 0, mkFileBookmark 1 2 10 1],
          collections := [], fresh := 2 }
        "f" 2).1 "c1").insertionSort (· ≤ ·) =
      (List.range 2).map (fun i => Int.ofNat i * 10)) ∧
    ((moveCollectionUp
        { bookmarks := [],
          collections := [{ id := "a", name := "A", createdAt := 0,
                            workspaceId := some "ws", order := 0 },
                          { id := "b", name := "B", createdAt := 1,
                            workspaceId := some "ws", order := 2 }], fresh := 2 }
        "a").1 =
      { bookmarks := [],
        collections := [{ id := "a", name := "A", createdAt := 0,
                          workspaceId := some "ws", order := 0 },
                        { id := "b", name := "B", createdAt := 1,
                          workspaceId := some "ws", order := 2 }], fresh := 2 }) ∧
    ((moveBookmarkUp
        { bookmarks := [mkFileBookmark 0 1 0 0, mkFileBookmark 1 2 10 1],
          collections := [], fresh := 2 }
        "f" 1).1 =
      { bookmarks := [mkFileBookmark 0 1 0 0, mkFileBookmark 1 2 10 1],
        collections := [], fresh := 2 }) := by
  refine ⟨?_, ?_, ?_, ?_⟩
  · exact C4_move_order_normalization_amended.1
      { bookmarks := [],
        collections := [{ id := "a", name := "A", createdAt := 0,
                          workspaceId := some "ws", order := 0 },
                        { id := "b", name := "B", createdAt := 1,
                          workspaceId := some "ws", order := 2 }], fresh := 2 }
      "b"
      { id := "b", name := "B", createdAt := 1, workspaceId := some "ws", order := 2 }
      (by decide) (by decide) (by decide)
  · exact C4_move_order_normalization_amended.2.2.1
      { bookmarks := [mkFileBookmark 0 1 0 0, mkFileBookmark 1 2 10 1],
        collections := [], fresh := 2 }
      "f" 2 (mkFileBookmark 1 2 10 1) "c1"
      (by decide) (by decide) (by decide) (by decide)
  · exact C4_move_order_normalization_amended.2.2.2.2.1
      { bookmarks := [],
        collections := [{ id := "a", name := "A", createdAt := 0,
                          workspaceId := some "ws", order := 0 },
                        { id := "b", name := "B", createdAt := 1,
                          workspaceId := some "ws", order := 2 }], fresh := 2 }
      "a" (by decide)
  · exact C4_move_order_normalization_amended.2.2.2.2.2.2.1
      { bookmarks := [mkFileBookmark 0 1 0 0, mkFileBookmark 1 2 10 1],
        collections := [], fresh := 2 }
      "f" 1 (by decide)

/-! Round-trip lemmas: exporting and merge-importing into an empty state. -/

theorem forall₂_of_map {α β : Type} (R : α → β → Prop) (l : List α) (f : α → β)
    (h : ∀ a ∈ l, R a (f a)) : List.Forall₂ R l (l.map f) := by
  induction l with
  | nil => exact List.Forall₂.nil
  | cons a t ih =>
    exact List.Forall₂.cons (h a (List.mem_cons_self a t))
      (ih (fun x hx => h x (List.mem_cons_of_mem a hx)))

theorem importCollectionStep_fresh_merge (env : Env) (A : ManagerState) (c : Collection)
    (hdisj : ∀ c2 ∈ A.collections, c2.id ≠ c.id) :
    importCollectionStep env ImportMode.merge A (exportedCollectionOf c) =
      { A with collections := A.collections ++ [importedCollection env c],
               fresh := A.fresh + 1 } := by
  unfold importCollectionStep exportedCollectionOf
  simp only [jsOrInt]
  have hfind : getCollection { A with fresh := A.fresh + 1 } c.id = none := by
    unfold getCollection
    apply List.find?_eq_none.mpr
    intro x hx
    simp only [beq_iff_eq]
    exact hdisj x hx
  rw [hfind]
  rw [if_neg (by simp)]
  unfold addCollection
  have hany : (A.collections.any (fun x => x.id == c.id)) = false := by
    rw [List.any_eq_false]
    intro x hx
    simp only [beq_iff_eq]
    exact hdisj x hx
  show (if (A.collections.any (fun x => x.id == c.id)) = true then _ else _) = _
  rw [hany]
  simp [importedCollection]

theorem import_collections_fold (env : Env) (cs : List Collection) :
    ∀ (A : ManagerState),
    (∀ c ∈ cs, ∀ c2 ∈ A.collections, c2.id ≠ c.id) →
    (cs.map (fun c => c.id)).Nodup →
    ((cs.map exportedCollectionOf).foldl
        (importCollectionStep env ImportMode.merge) A) =
      { A with collections := A.collections ++ cs.map (importedCollection env),
               fresh := A.fresh + cs.length } := by
  induction cs with
  | nil =>
    intro A _ _
    simp
  | cons c cs ih =>
    intro A hdisj hnd
    have hnd2 : (c.id :: cs.map (fun c => c.id)).Nodup := by simpa using hnd
    simp only [List.map_cons, List.foldl_cons]
    rw [importCollectionStep_fresh_merge env A c
      (fun c2 h2 => hdisj c (List.mem_cons_self _ _) c2 h2)]
    rw [ih _ ?_ ?_]
    · simp only [List.length_cons, List.map_cons, List.append_assoc,
        List.singleton_append]
      congr 1
      omega
    · intro x hx c2 h2
      rcases List.mem_append.mp h2 with h2 | h2
      · exact hdisj x (List.mem_cons_of_mem _ hx) c2 h2
      · have hc2 : c2 = importedCollection env c := by simpa using h2
        subst hc2
        intro h
        exact (List.nodup_cons.mp hnd2).1
          (List.mem_map.mpr ⟨x, hx, by simpa [importedCollection] using h.symm⟩)
    · exact (List.nodup_cons.mp hnd2).2

theorem jsOrStr_some_ne (s d : String) (h : s ≠ "") : jsOrStr (some s) d = s := by
  simp only [jsOrStr]
  rw [if_neg h]

theorem jsOrStr_some_empty_default (s : String) : jsOrStr (some s) "" = s := by
  simp only [jsOrStr]
  by_cases h : s = ""
  · simp [h]
  · simp [h]

theorem addTargetState_not_ungrouped (env : Env) (st : ManagerState) (cid : Option String)
    (h : jsOrStr cid "ungrouped-bookmarks" ≠ "ungrouped-bookmarks") :
    addTargetState env st cid = st := by
  unfold addTargetState
  rw [if_neg h]

theorem importBookmarkStep_merge_ok (env : Env) (B : ManagerState) (b : Bookmark)
    (cid : String)
    (hcid : b.collectionId = some cid) (hcne : cid ≠ "") (hcnu : cid ≠ "ungrouped-bookmarks")
    (hnokey : ∀ b2 ∈ B.bookmarks, ¬(b2.uri = rtUri env b.uri ∧ b2.line = b.line))
    (hcap : ((B.bookmarks.filter (fun x => x.uri == rtUri env b.uri)).length : Int) <
      env.maxBookmarksPerFile) :
    importBookmarkStep env ImportMode.merge B (exportedBookmarkOf env b) =
      { B with bookmarks := B.bookmarks ++ [roundTripBookmark env B.fresh b],
               fresh := B.fresh + 1 } := by
  unfold roundTripBookmark
  unfold rtUri at hnokey hcap ⊢
  have hfind : B.bookmarks.find?
      (fun x => x.uri == makeUriAbsolute env (makeUriRelative env b.uri) &&
        x.line == b.line) = none := by
    apply List.find?_eq_none.mpr
    intro x hx
    simp only [Bool.and_eq_true, beq_iff_eq]
    exact fun hh => hnokey x hx ⟨hh.1, hh.2⟩
  have hgb : getBookmark B (makeUriAbsolute env (makeUriRelative env b.uri)) b.line =
      none := hfind
  have hjs : jsOrStr (some cid) "ungrouped-bookmarks" = cid :=
    jsOrStr_some_ne cid _ hcne
  have htarget : addTargetState env B (some cid) = B :=
    addTargetState_not_ungrouped env B (some cid) (by rw [hjs]; exact hcnu)
  have hm : ¬ env.maxBookmarksPerFile ≤
      ((B.bookmarks.filter
        (fun x => x.uri == makeUriAbsolute env (makeUriRelative env b.uri))).length : Int) :=
    not_le.mpr hcap
  unfold importBookmarkStep
  simp only [exportedBookmarkOf]
  rw [if_neg (by simp [hgb])]
  rw [hcid, hjs]
  rw [addBookmark_of_ok env B (makeUriAbsolute env (makeUriRelative env b.uri)) b.line
    (some cid) (some b.description) hfind hm]
  simp only [htarget]
  rw [List.map_append]
  have hpre : B.bookmarks.map (fun x =>
      if x.uri == makeUriAbsolute env (makeUriRelative env b.uri) && x.line == b.line then
        { x with
          order := match (some b.order : Option Int) with
                   | some o => o
                   | none => x.order,
          createdAt := b.createdAt }
      else x) = B.bookmarks := by
    have : ∀ x ∈ B.bookmarks, (if x.uri == makeUriAbsolute env (makeUriRelative env b.uri) &&
        x.line == b.line then
        ({ x with
          order := match (some b.order : Option Int) with
                   | some o => o
                   | none => x.order,
          createdAt := b.createdAt } : Bookmark)
      else x) = x := by
      intro x hx
      rw [if_neg]
      simp only [Bool.and_eq_true, beq_iff_eq]
      exact fun hh => hnokey x hx ⟨hh.1, hh.2⟩
    rw [List.map_congr_left this]
    simp
  rw [hpre]
  have hnew : (addNewBookmark env B (makeUriAbsolute env (makeUriRelative env b.uri)) b.line
      (some cid) (some b.description)) =
      { id := B.fresh, uri := makeUriAbsolute env (makeUriRelative env b.uri), line := b.line,
        collectionId := some cid, description := b.description,
        createdAt := B.fresh,
        order := ((getBookmarksByCollection B cid).length : Int) * 10 } := by
    unfold addNewBookmark
    rw [htarget, hjs]
    simp [jsOrStr_some_empty_default]
  rw [hnew]
  simp only [List.map_cons, List.map_nil]
  rw [if_pos (by simp)]

theorem import_bookmarks_fold (env : Env) (bs : List Bookmark) :
    ∀ (B : ManagerState),
    (∀ b ∈ bs, ∃ cid, b.collectionId = some cid ∧ cid ≠ "" ∧
      cid ≠ "ungrouped-bookmarks") →
    (∀ b ∈ bs, ∀ b2 ∈ B.bookmarks, ¬(b2.uri = rtUri env b.uri ∧ b2.line = b.line)) →
    ((bs.map (fun b => (rtUri env b.uri, b.line))).Nodup) →
    (∀ b ∈ bs,
      (((B.bookmarks.filter (fun x => x.uri == rtUri env b.uri)).length +
        (bs.filter (fun x => rtUri env x.uri == rtUri env b.uri)).length : Nat) : Int) ≤
        env.maxBookmarksPerFile) →
    ∃ newBs, ((bs.map (exportedBookmarkOf env)).foldl
        (importBookmarkStep env ImportMode.merge) B) =
      { B with bookmarks := B.bookmarks ++ newBs, fresh := B.fresh + bs.length } ∧
      List.Forall₂ (fun b nb => nb.uri = rtUri env b.uri ∧ nb.line = b.line ∧
        nb.description = b.description ∧ nb.collectionId = b.collectionId ∧
        nb.createdAt = b.createdAt ∧ nb.order = b.order) bs newBs := by
  induction bs with
  | nil =>
    intro B _ _ _ _
    exact ⟨[], by simp, List.Forall₂.nil⟩
  | cons b bs ih =>
    intro B hcids hnokey hnd hcap
    obtain ⟨cid, hcid, hcne, hcnu⟩ := hcids b (List.mem_cons_self _ _)
    have hnd2 : ((rtUri env b.uri, b.line) ::
        bs.map (fun x => (rtUri env x.uri, x.line))).Nodup := by
      simpa using hnd
    have hcap1 : ((B.bookmarks.filter (fun x => x.uri == rtUri env b.uri)).length : Int) <
        env.maxBookmarksPerFile := by
      have h := hcap b (List.mem_cons_self _ _)
      have hmem : b ∈ (b :: bs).filter (fun x => rtUri env x.uri == rtUri env b.uri) := by
        rw [List.mem_filter]
        exact ⟨List.mem_cons_self _ _, by simp⟩
      have hlen : 0 < ((b :: bs).filter
          (fun x => rtUri env x.uri == rtUri env b.uri)).length :=
        List.length_pos_of_mem hmem
      omega
    have hstep := importBookmarkStep_merge_ok env B b cid hcid hcne hcnu
      (fun b2 h2 => hnokey b (List.mem_cons_self _ _) b2 h2) hcap1
    simp only [List.map_cons, List.foldl_cons]
    rw [hstep]
    have hih := ih { B with
        bookmarks := B.bookmarks ++ [roundTripBookmark env B.fresh b],
        fresh := B.fresh + 1 }
      (fun x hx => hcids x (List.mem_cons_of_mem _ hx))
      ?nokey ?nd ?cap
    case nokey =>
      intro x hx b2 h2
      rcases List.mem_append.mp h2 with h2 | h2
      · exact hnokey x (List.mem_cons_of_mem _ hx) b2 h2
      · have hb2 : b2 = roundTripBookmark env B.fresh b := by simpa using h2
        subst hb2
        rintro ⟨h1, h2⟩
        simp only [roundTripBookmark] at h1 h2
        exact (List.nodup_cons.mp hnd2).1
          (List.mem_map.mpr ⟨x, hx, by simp [← h1, ← h2]⟩)
    case nd => exact (List.nodup_cons.mp hnd2).2
    case cap =>
      intro x hx
      have h := hcap x (List.mem_cons_of_mem _ hx)
      have e1 : ((B.bookmarks ++ [roundTripBookmark env B.fresh b]).filter
            (fun y => y.uri == rtUri env x.uri)).length =
          (B.bookmarks.filter (fun y => y.uri == rtUri env x.uri)).length +
          (if (rtUri env b.uri == rtUri env x.uri) = true then 1 else 0) := by
        rw [List.filter_append, List.length_append]
        by_cases hc : (rtUri env b.uri == rtUri env x.uri) = true <;>
          simp [List.filter, roundTripBookmark, hc]
      have e2 : ((b :: bs).filter
          (fun y => rtUri env y.uri == rtUri env x.uri)).length =
          (if (rtUri env b.uri == rtUri env x.uri) = true then 1 else 0) +
          (bs.filter (fun y => rtUri env y.uri == rtUri env x.uri)).length := by
        rw [List.filter_cons]
        by_cases hc : (rtUri env b.uri == rtUri env x.uri) = true <;>
          simp [hc, Nat.add_comm]
      rw [e2] at h
      rw [e1]
      omega
    obtain ⟨newBs, hfold, hrel⟩ := hih
    refine ⟨roundTripBookmark env B.fresh b :: newBs, ?_, ?_⟩
    · rw [hfold]
      simp only [List.length_cons, List.append_assoc, List.singleton_append]
      congr 1
      omega
    · exact List.Forall₂.cons (by simp [roundTripBookmark]) hrel

/-- C2 (amended): for a state whose collection ids are distinct, whose
bookmark keys stay distinct under the export/import uri translation,
whose per-file bookmark counts fit the configured maximum, and whose
bookmarks all carry an explicit non-empty, non-ungrouped collection id,
exporting and then merge-importing into an empty state reproduces the
bookmark and collection counts; every collection keeps id, createdAt and
order verbatim; every bookmark keeps line, description, collectionId,
createdAt and order verbatim (with the round-tripped uri) — but bookmark
ids are regenerated, not preserved (see the counterexample). -/
theorem C2_round_trip_amended (env : Env) (st : ManagerState) (n : Nat)
    (hids : (st.collections.map (fun c => c.id)).Nodup)
    (hkeys : (st.bookmarks.map (fun b => (rtUri env b.uri, b.line))).Nodup)
    (hcap : ∀ b ∈ st.bookmarks,
      ((st.bookmarks.filter
        (fun x => rtUri env x.uri == rtUri env b.uri)).length : Int) ≤
        env.maxBookmarksPerFile)
    (hcids : ∀ b ∈ st.bookmarks, ∃ cid, b.collectionId = some cid ∧ cid ≠ "" ∧
      cid ≠ "ungrouped-bookmarks") :
    (importBookmarks env (emptyState n) (exportBookmarks env st)
        ImportMode.merge).collections.length = st.collections.length ∧
    (importBookmarks env (emptyState n) (exportBookmarks env st)
        ImportMode.merge).bookmarks.length = st.bookmarks.length ∧
    List.Forall₂ (fun c c2 => c2.id = c.id ∧ c2.createdAt = c.createdAt ∧
        c2.order = c.order)
      st.collections
      (importBookmarks env (emptyState n) (exportBookmarks env st)
        ImportMode.merge).collections ∧
    List.Forall₂ (fun b nb => nb.uri = rtUri env b.uri ∧ nb.line = b.line ∧
        nb.description = b.description ∧ nb.collectionId = b.collectionId ∧
        nb.createdAt = b.createdAt ∧ nb.order = b.order)
      st.bookmarks
      (importBookmarks env (emptyState n) (exportBookmarks env st)
        ImportMode.merge).bookmarks := by
  have hunf : importBookmarks env (emptyState n) (exportBookmarks env st)
      ImportMode.merge =
      (st.bookmarks.map (exportedBookmarkOf env)).foldl
        (importBookmarkStep env ImportMode.merge)
        ((st.collections.map exportedCollectionOf).foldl
          (importCollectionStep env ImportMode.merge) (emptyState n)) := by
    unfold importBookmarks exportBookmarks
    simp
  have hcoll := import_collections_fold env st.collections (emptyState n)
    (fun c _ c2 h2 => absurd h2 (by simp [emptyState])) hids
  set st1 := ((st.collections.map exportedCollectionOf).foldl
    (importCollectionStep env ImportMode.merge) (emptyState n)) with hst1
  have hst1b : st1.bookmarks = [] := by
    rw [hcoll]
    rfl
  have hst1c : st1.collections = st.collections.map (importedCollection env) := by
    rw [hcoll]
    simp [emptyState]
  have hbm := import_bookmarks_fold env st.bookmarks st1
    hcids
    (fun b _ b2 h2 => by
      rw [hst1b] at h2
      cases h2)
    hkeys
    (fun b hb => by
      rw [hst1b]
      simpa using hcap b hb)
  obtain ⟨newBs, hfold, hrel⟩ := hbm
  have hfinal : importBookmarks env (emptyState n) (exportBookmarks env st)
      ImportMode.merge =
      { st1 with bookmarks := st1.bookmarks ++ newBs,
                 fresh := st1.fresh + st.bookmarks.length } :=
    hunf.trans hfold
  have hfb : (importBookmarks env (emptyState n) (exportBookmarks env st)
      ImportMode.merge).bookmarks = newBs := by
    rw [hfinal]
    show st1.bookmarks ++ newBs = newBs
    rw [hst1b]
    rfl
  have hfc : (importBookmarks env (emptyState n) (exportBookmarks env st)
      ImportMode.merge).collections = st.collections.map (importedCollection env) := by
    rw [hfinal]
    exact hst1c
  refine ⟨?_, ?_, ?_, ?_⟩
  · rw [hfc, List.length_map]
  · rw [hfb]
    exact hrel.length_eq.symm
  · rw [hfc]
    exact forall₂_of_map _ _ _ (fun c _ => by simp [importedCollection])
  · rw [hfb]
    exact hrel

/-- Witness for C2 at a concrete one-bookmark, one-collection state with an
open workspace folder: counts and the listed fields survive the round
trip. -/
theorem C2_round_trip_amended_witness :
    (importBookmarks envWs (emptyState 0)
        (exportBookmarks envWs
          { bookmarks := [{ id := 5, uri := "file:///ws/a.ts", line := 1,
                            collectionId := some "c1", description := "d",
                            createdAt := 3, order := 7 }],
            collections := [{ id := "c1", name := "N", createdAt := 2,
                              workspaceId := some "ws", order := 4 }], fresh := 6 })
        ImportMode.merge).collections.length = 1 ∧
    (importBookmarks envWs (emptyState 0)
        (exportBookmarks envWs
          { bookmarks := [{ id := 5, uri := "file:///ws/a.ts", line := 1,
                            collectionId := some "c1", description := "d",
                            createdAt := 3, order := 7 }],
            collections := [{ id := "c1", name := "N", createdAt := 2,
                              workspaceId := some "ws", order := 4 }], fresh := 6 })
        ImportMode.merge).bookmarks.length = 1 := by
  have h := C2_round_trip_amended envWs
    { bookmarks := [{ id := 5, uri := "file:///ws/a.ts", line := 1,
                      collectionId := some "c1", description := "d",
                      createdAt := 3, order := 7 }],
      collections := [{ id := "c1", name := "N", createdAt := 2,
                        workspaceId := some "ws", order := 4 }], fresh := 6 }
    0 (by decide) (by decide) (by decide)
    (by
      intro b hb
      rw [List.mem_singleton] at hb
      subst hb
      exact ⟨"c1", rfl, by decide, by decide⟩)
  exact ⟨h.1, h.2.1⟩

/-! Helper lemmas for the single-change reconciliation analysis (C3). -/

theorem linesAddedOf_nonneg (text : String) : 0 ≤ linesAddedOf text := by
  unfold linesAddedOf
  split
  · exact le_refl 0
  · exact Int.ofNat_nonneg _

theorem classifyChange_nil (acc : List PendingRemove × List PendingUpdate)
    (c : ContentChange) : classifyChange [] acc c = acc := by
  simp only [classifyChange, List.foldl_nil]

theorem classifyChange_cons (b : Bookmark) (t : List Bookmark)
    (acc : List PendingRemove × List PendingUpdate) (c : ContentChange) :
    classifyChange (b :: t) acc c =
      classifyChange t
        (if b.line < c.startLine then acc
         else if c.startLine ≤ b.line ∧ b.line ≤ c.endLine then
           (acc.1 ++ [pendingRemoveOf b], acc.2)
         else if c.endLine < b.line then
           if 0 ≤ b.line - (c.endLine - c.startLine) + linesAddedOf c.text then
             (acc.1, acc.2 ++ [pendingUpdateOf c.startLine c.endLine (linesAddedOf c.text) b])
           else (acc.1 ++ [pendingRemoveOf b], acc.2)
         else acc) c := by
  simp only [classifyChange, List.foldl_cons, pendingRemoveOf, pendingUpdateOf]

theorem classifyChange_single (c : ContentChange) (hse : c.startLine ≤ c.endLine)
    (bs : List Bookmark) :
    ∀ (r0 : List PendingRemove) (u0 : List PendingUpdate),
    classifyChange bs (r0, u0) c =
      (r0 ++ (bs.filter (remPredC3 c.startLine c.endLine (linesAddedOf c.text))).map
         pendingRemoveOf,
       u0 ++ (bs.filter (movPredC3 c.startLine c.endLine (linesAddedOf c.text))).map
         (pendingUpdateOf c.startLine c.endLine (linesAddedOf c.text))) := by
  induction bs with
  | nil =>
    intro r0 u0
    simp [classifyChange_nil]
  | cons b t ih =>
    intro r0 u0
    rw [classifyChange_cons]
    by_cases h1 : b.line < c.startLine
    · have h2 : ¬ c.startLine ≤ b.line := by omega
      have h3 : ¬ c.endLine < b.line := by omega
      have hrem : remPredC3 c.startLine c.endLine (linesAddedOf c.text) b = false := by
        simp [remPredC3, h2, h3]
      have hmov : movPredC3 c.startLine c.endLine (linesAddedOf c.text) b = false := by
        simp [movPredC3, h3]
      rw [if_pos h1, ih r0 u0]
      simp [List.filter_cons, hrem, hmov]
    · by_cases h2 : c.startLine ≤ b.line ∧ b.line ≤ c.endLine
      · have h3 : ¬ c.endLine < b.line := by omega
        have hrem : remPredC3 c.startLine c.endLine (linesAddedOf c.text) b = true := by
          simp [remPredC3, h2.1, h2.2]
        have hmov : movPredC3 c.startLine c.endLine (linesAddedOf c.text) b = false := by
          simp [movPredC3, h3]
        rw [if_neg h1, if_pos h2, ih (r0 ++ [pendingRemoveOf b]) u0]
        simp [List.filter_cons, hrem, hmov]
      · have h3 : c.endLine < b.line := by
          push_neg at h1 h2
          exact h2 h1
        by_cases h4 : 0 ≤ b.line - (c.endLine - c.startLine) + linesAddedOf c.text
        · have h5 : ¬ b.line ≤ c.endLine := by omega
          have h6 : ¬ b.line - (c.endLine - c.startLine) + linesAddedOf c.text < 0 := by omega
          have hrem : remPredC3 c.startLine c.endLine (linesAddedOf c.text) b = false := by
            simp [remPredC3, h5, h6]
          have hmov : movPredC3 c.startLine c.endLine (linesAddedOf c.text) b = true := by
            simp [movPredC3, h3, h4]
          rw [if_neg h1, if_neg h2, if_pos h3, if_pos h4,
            ih r0 (u0 ++ [pendingUpdateOf c.startLine c.endLine (linesAddedOf c.text) b])]
          simp [List.filter_cons, hrem, hmov]
        · have h5 : ¬ b.line ≤ c.endLine := by omega
          have h6 : b.line - (c.endLine - c.startLine) + linesAddedOf c.text < 0 := by omega
          have hrem : remPredC3 c.startLine c.endLine (linesAddedOf c.text) b = true := by
            simp [remPredC3, h3, h6]
          have hmov : movPredC3 c.startLine c.endLine (linesAddedOf c.text) b = false := by
            simp [movPredC3, h4]
          rw [if_neg h1, if_neg h2, if_pos h3, if_neg h4, ih (r0 ++ [pendingRemoveOf b]) u0]
          simp [List.filter_cons, hrem, hmov]

theorem removeBookmark_fst_bookmarks (st : ManagerState) (u : String) (l : Int) :
    (removeBookmark st u l).1.bookmarks =
      st.bookmarks.eraseP (fun b => b.uri == u && b.line == l) := by
  unfold removeBookmark
  split
  · rfl
  · rename_i h
    rw [List.any_eq_true] at h
    push_neg at h
    exact (List.eraseP_of_forall_not h).symm

theorem removeBookmark_fst_collections (st : ManagerState) (u : String) (l : Int) :
    (removeBookmark st u l).1.collections = st.collections := by
  unfold removeBookmark
  split <;> rfl

theorem removeBookmark_fst_fresh (st : ManagerState) (u : String) (l : Int) :
    (removeBookmark st u l).1.fresh = st.fresh := by
  unfold removeBookmark
  split <;> rfl

theorem eraseP_eq_filter_of_count {α : Type} (p : α → Bool) (l : List α)
    (h : l.countP p ≤ 1) : l.eraseP p = l.filter (fun a => !p a) := by
  induction l with
  | nil => simp
  | cons a t ih =>
    by_cases hp : p a = true
    · simp only [List.countP_cons, hp, if_pos] at h
      have h0 : t.countP p = 0 := by omega
      have hall := List.countP_eq_zero.mp h0
      rw [List.eraseP_cons_of_pos hp, List.filter_cons_of_neg (by simp [hp])]
      exact (List.filter_eq_self.mpr (fun b hb => by simp [hall b hb])).symm
    · have hp2 : p a = false := by
        cases hpa : p a with
        | true => exact absurd hpa hp
        | false => rfl
      simp only [List.countP_cons, hp2, if_neg, Bool.false_eq_true, add_zero] at h
      rw [List.eraseP_cons_of_neg hp, List.filter_cons_of_pos (by simp [hp2])]
      rw [ih h]

theorem filter_or_perm {α : Type} (p q : α → Bool) (h : ∀ a, ¬(p a = true ∧ q a = true))
    (l : List α) : (l.filter (fun a => p a || q a)).Perm (l.filter p ++ l.filter q) := by
  induction l with
  | nil => simp
  | cons a t ih =>
    cases hp : p a with
    | true =>
      have hq : q a = false := by
        cases hqa : q a with
        | true => exact absurd ⟨hp, hqa⟩ (h a)
        | false => rfl
      simp only [List.filter_cons, hp, hq, Bool.true_or, if_pos, Bool.false_eq_true, if_neg,
        List.cons_append]
      exact ih.cons a
    | false =>
      cases hq : q a with
      | true =>
        simp only [List.filter_cons, hp, hq, Bool.false_or, if_pos, Bool.false_eq_true, if_neg]
        exact (ih.cons a).trans List.perm_middle.symm
      | false =>
        simp only [List.filter_cons, hp, hq, Bool.false_or, Bool.false_eq_true, if_neg]
        exact ih

theorem length_filter_add_le {α : Type} (p q : α → Bool)
    (h : ∀ a, ¬(p a = true ∧ q a = true)) (l : List α) :
    (l.filter p).length + (l.filter q).length ≤ l.length := by
  have hp := (filter_or_perm p q h l).length_eq
  rw [List.length_append] at hp
  rw [← hp]
  exact List.length_filter_le _ l

theorem countP_le_one_of_pairwise {α : Type} (f : α → Int) (v : Int) (l : List α)
    (h : l.Pairwise (fun a b => f a ≠ f b)) : l.countP (fun a => f a == v) ≤ 1 := by
  induction l with
  | nil => simp
  | cons a t ih =>
    rw [List.pairwise_cons] at h
    by_cases ha : f a = v
    · have h0 : t.countP (fun a => f a == v) = 0 := by
        rw [List.countP_eq_zero]
        intro b hb
        simp only [beq_iff_eq]
        intro hbv
        exact h.1 b hb (by rw [ha, hbv])
      simp [List.countP_cons, ha, h0]
    · have ht := ih h.2
      simp only [List.countP_cons, beq_iff_eq, ha, if_neg, decide_eq_true_eq, add_zero]
      exact ht

theorem pairwise_line_inj {α : Type} (f : α → Int) (l : List α)
    (h : l.Pairwise (fun a b => f a ≠ f b)) :
    ∀ a ∈ l, ∀ b ∈ l, f a = f b → a = b := by
  induction l with
  | nil =>
    intro a ha
    exact absurd ha (List.not_mem_nil a)
  | cons x t ih =>
    rw [List.pairwise_cons] at h
    intro a ha b hb hf
    rcases List.mem_cons.mp ha with rfl | ha2
    · rcases List.mem_cons.mp hb with rfl | hb2
      · rfl
      · exact absurd hf (h.1 b hb2)
    · rcases List.mem_cons.mp hb with rfl | hb2
      · exact absurd hf.symm (h.1 a ha2)
      · exact ih h.2 a ha2 b hb2 hf

theorem hasBookmark_iff_exists (st : ManagerState) (u : String) (l : Int) :
    hasBookmark st u l = true ↔ ∃ b ∈ st.bookmarks, b.uri = u ∧ b.line = l := by
  unfold hasBookmark getBookmark
  rw [List.find?_isSome]
  simp [Bool.and_eq_true, beq_iff_eq]

theorem addTargetState_fresh_ge (env : Env) (st : ManagerState) (cid : Option String) :
    st.fresh ≤ (addTargetState env st cid).fresh := by
  unfold addTargetState
  split
  · unfold ensureUngroupedCollection
    cases h : st.collections.find? (fun c => c.id == "ungrouped-bookmarks" &&
        c.workspaceId == normalizeWorkspaceId env.workspaceFolder) with
    | some c =>
      simp only [h]
      exact le_refl _
    | none =>
      simp only [h]
      exact Nat.le_succ _
  · exact le_refl _

theorem key_count_le_one (st : ManagerState) (uri : String) (l : Int)
    (hdist : (getBookmarksByUri st uri).Pairwise (fun a b => a.line ≠ b.line)) :
    st.bookmarks.countP (fun b => b.uri == uri && b.line == l) ≤ 1 := by
  have h1 : st.bookmarks.countP (fun b => b.uri == uri && b.line == l) =
      (getBookmarksByUri st uri).countP (fun b => b.line == l) := by
    unfold getBookmarksByUri
    rw [List.countP_filter]
    apply List.countP_congr
    intro a _
    cases h2 : a.uri == uri <;> cases h3 : a.line == l <;> simp [h2, h3]
  rw [h1]
  exact countP_le_one_of_pairwise (fun b : Bookmark => b.line) l _ hdist

theorem remove_fold_lines (uri : String) (ls : List Int) :
    ∀ cur : ManagerState,
    (∀ l ∈ ls, cur.bookmarks.countP (fun b => b.uri == uri && b.line == l) ≤ 1) →
    (removeFold cur (ls.map (fun l => ({ uri := uri, line := l } : PendingRemove)))).bookmarks =
        cur.bookmarks.filter (fun b => !(b.uri == uri && ls.any (fun l => b.line == l))) ∧
      (removeFold cur (ls.map (fun l =>
        ({ uri := uri, line := l } : PendingRemove)))).collections = cur.collections ∧
      (removeFold cur (ls.map (fun l =>
        ({ uri := uri, line := l } : PendingRemove)))).fresh = cur.fresh := by
  induction ls with
  | nil =>
    intro cur _
    refine ⟨?_, rfl, rfl⟩
    simp [removeFold]
  | cons l0 lt ih =>
    intro cur h
    have hstep : removeFold cur ((l0 :: lt).map (fun l =>
        ({ uri := uri, line := l } : PendingRemove))) =
        removeFold (removeBookmark cur uri l0).1 (lt.map (fun l =>
          ({ uri := uri, line := l } : PendingRemove))) := by
      simp only [removeFold, List.map_cons, List.foldl_cons]
    have hcur : (removeBookmark cur uri l0).1.bookmarks =
        cur.bookmarks.filter (fun b => !(b.uri == uri && b.line == l0)) := by
      rw [removeBookmark_fst_bookmarks]
      exact eraseP_eq_filter_of_count _ _ (h l0 (List.mem_cons_self l0 lt))
    have hsub : ∀ l ∈ lt, (removeBookmark cur uri l0).1.bookmarks.countP
        (fun b => b.uri == uri && b.line == l) ≤ 1 := by
      intro l hl
      rw [hcur]
      exact le_trans ((List.filter_sublist _).countP_le _) (h l (List.mem_cons_of_mem l0 hl))
    obtain ⟨hb, hc, hf⟩ := ih (removeBookmark cur uri l0).1 hsub
    rw [hstep]
    refine ⟨?_, ?_, ?_⟩
    · rw [hb, hcur, List.filter_filter]
      apply List.filter_congr
      intro a _
      cases h2 : a.uri == uri <;> cases h3 : a.line == l0 <;>
        cases h4 : lt.any (fun l => a.line == l) <;> simp [List.any_cons, h2, h3, h4]
    · rw [hc, removeBookmark_fst_collections]
    · rw [hf, removeBookmark_fst_fresh]

theorem pendingRemoveOf_map_eq (uri : String) (rs : List Bookmark)
    (h : ∀ b ∈ rs, b.uri = uri) :
    rs.map pendingRemoveOf = (rs.map (fun b => b.line)).map
      (fun l => ({ uri := uri, line := l } : PendingRemove)) := by
  rw [List.map_map]
  apply List.map_congr_left
  intro b hb
  simp [pendingRemoveOf, Function.comp, h b hb]

theorem mem_getBookmarksByUri (st : ManagerState) (uri : String) (b : Bookmark) :
    b ∈ getBookmarksByUri st uri ↔ b ∈ st.bookmarks ∧ b.uri = uri := by
  unfold getBookmarksByUri
  rw [List.mem_filter]
  simp

theorem update_fold_spec (env : Env) (st : ManagerState) (uri : String) (s e la : Int)
    (hse : s ≤ e) (hla : 0 ≤ la)
    (hnocol : ∀ a ∈ getBookmarksByUri st uri, ∀ b ∈ getBookmarksByUri st uri,
      e < a.line → e < b.line → a.line ≠ b.line → a.line - (e - s) + la ≠ b.line)
    (hcap : ((getBookmarksByUri st uri).length : Int) ≤ env.maxBookmarksPerFile)
    (todo : List Bookmark) :
    ∀ (cur : ManagerState) (newRecs : List Bookmark),
    (∀ b ∈ todo, b ∈ getBookmarksByUri st uri ∧ e < b.line ∧ 0 ≤ b.line - (e - s) + la) →
    todo.Pairwise (fun a b => a.line ≠ b.line) →
    (∀ nb ∈ newRecs, nb.uri = uri ∧ st.fresh ≤ nb.id ∧
      ∃ p, p ∈ getBookmarksByUri st uri ∧ e < p.line ∧ nb.line = p.line - (e - s) + la ∧
        ∀ q ∈ todo, p.line ≠ q.line) →
    cur.bookmarks.Perm (st.bookmarks.filter (keepPredC3 uri s) ++ todo ++ newRecs) →
    ((st.bookmarks.filter (keepPredC3 uri s)).filter (fun b => b.uri == uri)).length
        + todo.length + newRecs.length ≤ (getBookmarksByUri st uri).length →
    st.fresh ≤ cur.fresh →
    ∃ finalRecs : List Bookmark,
      (applyFold env cur (todo.map (pendingUpdateOf s e la))).bookmarks.Perm
        (st.bookmarks.filter (keepPredC3 uri s) ++ finalRecs) ∧
      (∀ nb ∈ finalRecs, nb.uri = uri ∧ st.fresh ≤ nb.id) ∧
      (finalRecs.map (fun b => b.line)).Perm
        (newRecs.map (fun b => b.line) ++ todo.map (fun b => b.line - (e - s) + la)) := by
  induction todo with
  | nil =>
    intro cur newRecs _ _ hnew hperm _ _
    refine ⟨newRecs, ?_, ?_, ?_⟩
    · simpa [applyFold] using hperm
    · intro nb hnb
      exact ⟨(hnew nb hnb).1, (hnew nb hnb).2.1⟩
    · simp
  | cons m todo ih =>
    intro cur newRecs htodo hnd hnew hperm hlen hfr
    obtain ⟨hmF, hme, hmt⟩ := htodo m (List.mem_cons_self m todo)
    have hmu : m.uri = uri := ((mem_getBookmarksByUri st uri m).mp hmF).2
    rw [List.pairwise_cons] at hnd
    have hkeepNot : ∀ y ∈ st.bookmarks.filter (keepPredC3 uri s),
        (y.uri == uri && y.line == m.line) = false := by
      intro y hy
      have h1 := (List.mem_filter.mp hy).2
      cases h2 : y.uri == uri with
      | false => simp [h2]
      | true =>
        simp only [keepPredC3, h2, Bool.true_and, Bool.not_eq_true',
          decide_eq_false_iff_not] at h1
        have h4 : y.line ≠ m.line := by omega
        simp [beq_eq_false_iff_ne.mpr h4]
    have htodoNot : ∀ y ∈ todo, (y.uri == uri && y.line == m.line) = false := by
      intro y hy
      have h4 : y.line ≠ m.line := fun hx => hnd.1 y hy hx.symm
      simp [beq_eq_false_iff_ne.mpr h4]
    have hnewNot : ∀ y ∈ newRecs, (y.uri == uri && y.line == m.line) = false := by
      intro y hy
      obtain ⟨hyu, hyid, p0, hp0F, hp0e, hyline, hp0d⟩ := hnew y hy
      have h4 : y.line ≠ m.line := by
        rw [hyline]
        exact hnocol p0 hp0F m hmF hp0e hme (hp0d m (List.mem_cons_self m todo))
      simp [beq_eq_false_iff_ne.mpr h4]
    have hmem : m ∈ cur.bookmarks := hperm.mem_iff.mpr (by simp)
    have hpm : (m.uri == uri && m.line == m.line) = true := by simp [hmu]
    have hfind : cur.bookmarks.find? (fun b => b.uri == uri && b.line == m.line) = some m := by
      cases hfo : cur.bookmarks.find? (fun b => b.uri == uri && b.line == m.line) with
      | none =>
        exact absurd hpm (by simpa using List.find?_eq_none.mp hfo m hmem)
      | some y =>
        have hyP := List.find?_some hfo
        have hymem := hperm.mem_iff.mp (List.mem_of_find?_eq_some hfo)
        rw [List.mem_append, List.mem_append] at hymem
        have hy_eq : y = m := by
          rcases hymem with (hk | hmt2) | hnr
          · rw [hkeepNot y hk] at hyP
            exact Bool.noConfusion hyP
          · rcases List.mem_cons.mp hmt2 with h | hy3
            · exact h
            · rw [htodoNot y hy3] at hyP
              exact Bool.noConfusion hyP
          · rw [hnewNot y hnr] at hyP
            exact Bool.noConfusion hyP
        rw [hy_eq]
    have hcount : cur.bookmarks.countP (fun b => b.uri == uri && b.line == m.line) ≤ 1 := by
      rw [hperm.countP_eq, List.countP_append, List.countP_append]
      have h1 : (st.bookmarks.filter (keepPredC3 uri s)).countP
          (fun b => b.uri == uri && b.line == m.line) = 0 :=
        List.countP_eq_zero.mpr (fun a ha => by simp [hkeepNot a ha])
      have h2a : todo.countP (fun b => b.uri == uri && b.line == m.line) = 0 :=
        List.countP_eq_zero.mpr (fun a ha => by simp [htodoNot a ha])
      have h3 : newRecs.countP (fun b => b.uri == uri && b.line == m.line) = 0 :=
        List.countP_eq_zero.mpr (fun a ha => by simp [hnewNot a ha])
      rw [h1, h3]
      simp [List.countP_cons, hpm, h2a, hmu]
    have hcurB : ((removeBookmark cur uri m.line).1).bookmarks.Perm
        (st.bookmarks.filter (keepPredC3 uri s) ++ todo ++ newRecs) := by
      rw [removeBookmark_fst_bookmarks, eraseP_eq_filter_of_count _ _ hcount]
      have hpf := hperm.filter (fun b => !(b.uri == uri && b.line == m.line))
      have e1 : (st.bookmarks.filter (keepPredC3 uri s)).filter
          (fun b => !(b.uri == uri && b.line == m.line)) =
          st.bookmarks.filter (keepPredC3 uri s) :=
        List.filter_eq_self.mpr (fun a ha => by rw [hkeepNot a ha]; rfl)
      have e2 : (m :: todo).filter (fun b => !(b.uri == uri && b.line == m.line)) = todo := by
        rw [List.filter_cons_of_neg (by simp [hpm, hmu])]
        exact List.filter_eq_self.mpr (fun a ha => by rw [htodoNot a ha]; rfl)
      have e3 : newRecs.filter (fun b => !(b.uri == uri && b.line == m.line)) = newRecs :=
        List.filter_eq_self.mpr (fun a ha => by rw [hnewNot a ha]; rfl)
      rw [List.filter_append, List.filter_append, e1, e2, e3] at hpf
      exact hpf
    have happly : applyUpdate env cur (pendingUpdateOf s e la m) =
        (addBookmark env (removeBookmark cur uri m.line).1 uri (m.line - (e - s) + la)
          m.collectionId (some m.description)).1 := by
      unfold applyUpdate getBookmark
      simp only [pendingUpdateOf, hmu]
      rw [hfind]
    have hfind1 : (removeBookmark cur uri m.line).1.bookmarks.find?
        (fun b => b.uri == uri && b.line == (m.line - (e - s) + la)) = none := by
      rw [List.find?_eq_none]
      intro a ha hPa
      have ha2 := hcurB.mem_iff.mp ha
      rw [List.mem_append, List.mem_append] at ha2
      rw [Bool.and_eq_true, beq_iff_eq, beq_iff_eq] at hPa
      obtain ⟨hau, hal⟩ := hPa
      rcases ha2 with (hk | ht) | hnr
      · have h1 := (List.mem_filter.mp hk).2
        simp only [keepPredC3, hau, beq_self_eq_true, Bool.true_and, Bool.not_eq_true',
          decide_eq_false_iff_not] at h1
        omega
      · obtain ⟨haF, hae, _⟩ := htodo a (List.mem_cons_of_mem m ht)
        exact hnocol m hmF a haF hme hae (hnd.1 a ht) hal.symm
      · obtain ⟨_, _, p0, hp0F, hp0e, hnline, hp0d⟩ := hnew a hnr
        have hne : p0.line ≠ m.line := hp0d m (List.mem_cons_self m todo)
        omega
    have hlen1 : ¬ env.maxBookmarksPerFile ≤
        (((removeBookmark cur uri m.line).1.bookmarks.filter
          (fun b => b.uri == uri)).length : Int) := by
      have hL := (hcurB.filter (fun b => b.uri == uri)).length_eq
      rw [List.filter_append, List.filter_append, List.length_append, List.length_append,
        List.filter_eq_self.mpr (fun a ha =>
          beq_iff_eq.mpr ((mem_getBookmarksByUri st uri a).mp
            (htodo a (List.mem_cons_of_mem m ha)).1).2),
        List.filter_eq_self.mpr (fun a ha => beq_iff_eq.mpr (hnew a ha).1)] at hL
      simp only [List.length_cons] at hlen
      omega
    have haddeq := addBookmark_of_ok env (removeBookmark cur uri m.line).1 uri
      (m.line - (e - s) + la) m.collectionId (some m.description) hfind1 hlen1
    have hnbu : (addNewBookmark env (removeBookmark cur uri m.line).1 uri
        (m.line - (e - s) + la) m.collectionId (some m.description)).uri = uri := rfl
    have hnbl : (addNewBookmark env (removeBookmark cur uri m.line).1 uri
        (m.line - (e - s) + la) m.collectionId (some m.description)).line =
        m.line - (e - s) + la := rfl
    have hnbid : st.fresh ≤ (addNewBookmark env (removeBookmark cur uri m.line).1 uri
        (m.line - (e - s) + la) m.collectionId (some m.description)).id := by
      show st.fresh ≤ (addTargetState env (removeBookmark cur uri m.line).1
        m.collectionId).fresh
      calc st.fresh ≤ cur.fresh := hfr
        _ = (removeBookmark cur uri m.line).1.fresh := (removeBookmark_fst_fresh cur uri m.line).symm
        _ ≤ _ := addTargetState_fresh_ge env _ m.collectionId
    have hst2b : (addBookmark env (removeBookmark cur uri m.line).1 uri
        (m.line - (e - s) + la) m.collectionId (some m.description)).1.bookmarks =
        (removeBookmark cur uri m.line).1.bookmarks ++
          [addNewBookmark env (removeBookmark cur uri m.line).1 uri
            (m.line - (e - s) + la) m.collectionId (some m.description)] := by
      rw [haddeq]
      show (addTargetState env (removeBookmark cur uri m.line).1 m.collectionId).bookmarks ++ _ = _
      rw [addTargetState_bookmarks]
    have hst2f : st.fresh ≤ (addBookmark env (removeBookmark cur uri m.line).1 uri
        (m.line - (e - s) + la) m.collectionId (some m.description)).1.fresh := by
      rw [haddeq]
      show st.fresh ≤ (addTargetState env (removeBookmark cur uri m.line).1
        m.collectionId).fresh + 1
      exact le_trans hnbid (Nat.le_succ _)
    obtain ⟨finalRecs, hfb, hfprops, hflines⟩ :=
      ih (addBookmark env (removeBookmark cur uri m.line).1 uri
          (m.line - (e - s) + la) m.collectionId (some m.description)).1
        (newRecs ++ [addNewBookmark env (removeBookmark cur uri m.line).1 uri
          (m.line - (e - s) + la) m.collectionId (some m.description)])
        (fun b hb => htodo b (List.mem_cons_of_mem m hb)) hnd.2
        (by
          intro y hy
          rcases List.mem_append.mp hy with hyo | hyn
          · obtain ⟨h1, h2, p0, h3, h4, h5, h6⟩ := hnew y hyo
            exact ⟨h1, h2, p0, h3, h4, h5, fun q hq => h6 q (List.mem_cons_of_mem m hq)⟩
          · rw [List.mem_singleton] at hyn
            subst hyn
            exact ⟨hnbu, hnbid, m, hmF, hme, hnbl, hnd.1⟩)
        (by
          rw [hst2b, ← List.append_assoc]
          exact hcurB.append_right _)
        (by
          simp only [List.length_cons] at hlen
          simp only [List.length_append, List.length_singleton]
          omega)
        hst2f
    refine ⟨finalRecs, ?_, hfprops, ?_⟩
    · have hstep : applyFold env cur ((m :: todo).map (pendingUpdateOf s e la)) =
          applyFold env (applyUpdate env cur (pendingUpdateOf s e la m))
            (todo.map (pendingUpdateOf s e la)) := by
        simp only [applyFold, List.map_cons, List.foldl_cons]
      rw [hstep, happly]
      exact hfb
    · refine hflines.trans (List.Perm.of_eq ?_)
      simp [hnbl]

theorem updateBookmarks_empty_eq (env : Env) (st : ManagerState) (uri : String)
    (cs : List ContentChange) (he : (getBookmarksByUri st uri).isEmpty = true) :
    updateBookmarksForDocumentChanges env st uri cs = (st, 0, 0) := by
  unfold updateBookmarksForDocumentChanges
  simp [he]

theorem updateBookmarks_single_eq (env : Env) (st : ManagerState) (uri : String)
    (c : ContentChange) (hne : (getBookmarksByUri st uri).isEmpty = false) :
    updateBookmarksForDocumentChanges env st uri [c] =
      (applyFold env
        (removeFold st (classifyChange (getBookmarksByUri st uri) ([], []) c).1)
        (classifyChange (getBookmarksByUri st uri) ([], []) c).2,
       (classifyChange (getBookmarksByUri st uri) ([], []) c).1.length,
       (classifyChange (getBookmarksByUri st uri) ([], []) c).2.length) := by
  unfold updateBookmarksForDocumentChanges
  simp only [hne, Bool.false_eq_true, if_false, List.foldl_cons, List.foldl_nil,
    removeFold, applyFold]

theorem notRem_eq_keep_or_mov (u : String) (s e la : Int) (hse : s ≤ e) (b : Bookmark)
    (hu : (b.uri == u) = true) :
    (!(remPredC3 s e la b)) = (keepPredC3 u s b || movPredC3 s e la b) := by
  simp only [remPredC3, keepPredC3, movPredC3, hu, Bool.true_and]
  rw [Bool.eq_iff_iff]
  simp only [Bool.not_eq_true', Bool.or_eq_false_iff, Bool.and_eq_false_iff,
    Bool.or_eq_true, Bool.and_eq_true, Bool.not_eq_true, decide_eq_true_eq,
    decide_eq_false_iff_not]
  omega

/-- C3 (amended): for a single text replacement of lines `[startLine,
endLine]` and a file whose bookmark lines are pairwise distinct, whose
bookmark count is within the configured maximum, whose bookmark ids are
below the fresh counter, and whose shifted bookmarks collide neither with
each other nor (being moved strictly below `startLine` is impossible) with
surviving ones: a bookmark strictly above the replaced range survives
untouched; every bookmark at or below `startLine`-or-later is removed as a
record (deleted if inside the range or with a negative target, re-created
under a fresh id otherwise); and a line holds a bookmark afterwards
exactly when it is the line of an untouched bookmark or the shift target
`line + (linesAdded - (endLine - startLine))` of a below-range bookmark
with a non-negative target. -/
theorem C3_single_change_reconciliation_amended
    (env : Env) (st : ManagerState) (uri : String) (c : ContentChange)
    (hse : c.startLine ≤ c.endLine)
    (hdist : (getBookmarksByUri st uri).Pairwise (fun a b => a.line ≠ b.line))
    (hfresh : ∀ b ∈ st.bookmarks, b.id < st.fresh)
    (hcap : ((getBookmarksByUri st uri).length : Int) ≤ env.maxBookmarksPerFile)
    (hnocol : ∀ a ∈ getBookmarksByUri st uri, ∀ b ∈ getBookmarksByUri st uri,
      c.endLine < a.line → c.endLine < b.line → a.line ≠ b.line →
      a.line + (linesAddedOf c.text - (c.endLine - c.startLine)) ≠ b.line) :
    (∀ b ∈ getBookmarksByUri st uri, b.line < c.startLine →
      b ∈ (updateBookmarksForDocumentChanges env st uri [c]).1.bookmarks) ∧
    (∀ b ∈ getBookmarksByUri st uri, c.startLine ≤ b.line →
      b ∉ (updateBookmarksForDocumentChanges env st uri [c]).1.bookmarks) ∧
    (∀ l : Int,
      hasBookmark (updateBookmarksForDocumentChanges env st uri [c]).1 uri l = true ↔
      ∃ b ∈ getBookmarksByUri st uri,
        (b.line < c.startLine ∧ l = b.line) ∨
        (c.endLine < b.line ∧
          0 ≤ b.line + (linesAddedOf c.text - (c.endLine - c.startLine)) ∧
          l = b.line + (linesAddedOf c.text - (c.endLine - c.startLine)))) := by
  by_cases hemp : (getBookmarksByUri st uri).isEmpty = true
  · have hnil : getBookmarksByUri st uri = [] := by
      rwa [List.isEmpty_iff] at hemp
    have hres := updateBookmarks_empty_eq env st uri [c] hemp
    refine ⟨?_, ?_, ?_⟩
    · intro b hb
      rw [hnil] at hb
      exact absurd hb (List.not_mem_nil b)
    · intro b hb
      rw [hnil] at hb
      exact absurd hb (List.not_mem_nil b)
    · intro l
      rw [hres]
      constructor
      · intro h
        obtain ⟨b, hb, hbu, _⟩ := (hasBookmark_iff_exists st uri l).mp h
        have hbF : b ∈ getBookmarksByUri st uri :=
          (mem_getBookmarksByUri st uri b).mpr ⟨hb, hbu⟩
        rw [hnil] at hbF
        exact absurd hbF (List.not_mem_nil b)
      · rintro ⟨b, hbF, _⟩
        rw [hnil] at hbF
        exact absurd hbF (List.not_mem_nil b)
  · rw [Bool.not_eq_true] at hemp
    have hla := linesAddedOf_nonneg c.text
    have hnocol2 : ∀ a ∈ getBookmarksByUri st uri, ∀ b ∈ getBookmarksByUri st uri,
        c.endLine < a.line → c.endLine < b.line → a.line ≠ b.line →
        a.line - (c.endLine - c.startLine) + linesAddedOf c.text ≠ b.line := by
      intro a ha b hb h1 h2 h3
      have := hnocol a ha b hb h1 h2 h3
      omega
    have hcl := classifyChange_single c hse (getBookmarksByUri st uri) [] []
    rw [List.nil_append, List.nil_append] at hcl
    have hmapeq := pendingRemoveOf_map_eq uri
      ((getBookmarksByUri st uri).filter
        (remPredC3 c.startLine c.endLine (linesAddedOf c.text)))
      (fun b hb => ((mem_getBookmarksByUri st uri b).mp (List.mem_filter.mp hb).1).2)
    obtain ⟨hrb, hrc, hrf⟩ := remove_fold_lines uri
      (((getBookmarksByUri st uri).filter
        (remPredC3 c.startLine c.endLine (linesAddedOf c.text))).map (fun b => b.line))
      st (fun l _ => key_count_le_one st uri l hdist)
    have hpointwise : ∀ b ∈ st.bookmarks,
        (!(b.uri == uri && ((((getBookmarksByUri st uri).filter
          (remPredC3 c.startLine c.endLine (linesAddedOf c.text))).map
            (fun b => b.line)).any (fun l => b.line == l)))) =
        (keepPredC3 uri c.startLine b ||
          (b.uri == uri && movPredC3 c.startLine c.endLine (linesAddedOf c.text) b)) := by
      intro b hb
      cases hu : b.uri == uri with
      | false => simp [keepPredC3, hu]
      | true =>
        have hbu : b.uri = uri := beq_iff_eq.mp hu
        have hbF : b ∈ getBookmarksByUri st uri :=
          (mem_getBookmarksByUri st uri b).mpr ⟨hb, hbu⟩
        have hany : ((((getBookmarksByUri st uri).filter
            (remPredC3 c.startLine c.endLine (linesAddedOf c.text))).map
              (fun b => b.line)).any (fun l => b.line == l)) =
            remPredC3 c.startLine c.endLine (linesAddedOf c.text) b := by
          cases hr : remPredC3 c.startLine c.endLine (linesAddedOf c.text) b with
          | true =>
            rw [List.any_eq_true]
            exact ⟨b.line, List.mem_map_of_mem _ (List.mem_filter.mpr ⟨hbF, hr⟩), by simp⟩
          | false =>
            rw [List.any_eq_false]
            intro x hx hbx
            obtain ⟨r, hrmem, hrline⟩ := List.mem_map.mp hx
            have heq : b = r := pairwise_line_inj (fun y : Bookmark => y.line)
              _ hdist b hbF r (List.mem_filter.mp hrmem).1
              (by
                show b.line = r.line
                rw [beq_iff_eq.mp hbx, ← hrline])
            rw [heq, (List.mem_filter.mp hrmem).2] at hr
            exact Bool.noConfusion hr
        simp only [hu, Bool.true_and, hany]
        exact notRem_eq_keep_or_mov uri c.startLine c.endLine (linesAddedOf c.text) hse b hu
    have hmovers : st.bookmarks.filter (fun b => b.uri == uri &&
        movPredC3 c.startLine c.endLine (linesAddedOf c.text) b) =
        (getBookmarksByUri st uri).filter
          (movPredC3 c.startLine c.endLine (linesAddedOf c.text)) := by
      unfold getBookmarksByUri
      rw [List.filter_filter]
      apply List.filter_congr
      intro a _
      cases h1 : a.uri == uri <;>
        cases h2 : movPredC3 c.startLine c.endLine (linesAddedOf c.text) a <;>
        simp [h1, h2]
    have hdisj : ∀ a : Bookmark, ¬(keepPredC3 uri c.startLine a = true ∧
        (a.uri == uri && movPredC3 c.startLine c.endLine (linesAddedOf c.text) a) = true) := by
      rintro a ⟨h1, h2⟩
      rw [Bool.and_eq_true] at h2
      simp only [keepPredC3, h2.1, Bool.true_and, Bool.not_eq_true',
        decide_eq_false_iff_not] at h1
      have h3 := h2.2
      simp only [movPredC3, Bool.and_eq_true, decide_eq_true_eq] at h3
      omega
    have hsplit := filter_or_perm (keepPredC3 uri c.startLine)
      (fun b => b.uri == uri && movPredC3 c.startLine c.endLine (linesAddedOf c.text) b)
      hdisj st.bookmarks
    have hperm : (removeFold st ((((getBookmarksByUri st uri).filter
        (remPredC3 c.startLine c.endLine (linesAddedOf c.text))).map (fun b => b.line)).map
          (fun l => ({ uri := uri, line := l } : PendingRemove)))).bookmarks.Perm
        (st.bookmarks.filter (keepPredC3 uri c.startLine) ++
          (getBookmarksByUri st uri).filter
            (movPredC3 c.startLine c.endLine (linesAddedOf c.text)) ++ []) := by
      rw [List.append_nil, hrb, List.filter_congr hpointwise]
      exact hsplit.trans (by rw [hmovers])
    have hkf : (st.bookmarks.filter (keepPredC3 uri c.startLine)).filter
        (fun b => b.uri == uri) =
        (getBookmarksByUri st uri).filter (fun b => !decide (c.startLine ≤ b.line)) := by
      unfold getBookmarksByUri
      rw [List.filter_filter, List.filter_filter]
      apply List.filter_congr
      intro a _
      cases h1 : a.uri == uri <;> cases h2 : decide (c.startLine ≤ a.line) <;>
        simp [keepPredC3, h1, h2]
    have hdj2 : ∀ a : Bookmark, ¬((!decide (c.startLine ≤ a.line)) = true ∧
        movPredC3 c.startLine c.endLine (linesAddedOf c.text) a = true) := by
      rintro a ⟨h1, h2⟩
      simp only [Bool.not_eq_true', decide_eq_false_iff_not] at h1
      simp only [movPredC3, Bool.and_eq_true, decide_eq_true_eq] at h2
      omega
    have hlenb : ((st.bookmarks.filter (keepPredC3 uri c.startLine)).filter
          (fun b => b.uri == uri)).length +
        ((getBookmarksByUri st uri).filter
          (movPredC3 c.startLine c.endLine (linesAddedOf c.text))).length +
        ([] : List Bookmark).length ≤ (getBookmarksByUri st uri).length := by
      rw [hkf]
      simp only [List.length_nil, add_zero]
      exact length_filter_add_le _ _ hdj2 (getBookmarksByUri st uri)
    have hfr : st.fresh ≤ (removeFold st ((((getBookmarksByUri st uri).filter
        (remPredC3 c.startLine c.endLine (linesAddedOf c.text))).map (fun b => b.line)).map
          (fun l => ({ uri := uri, line := l } : PendingRemove)))).fresh :=
      le_of_eq hrf.symm
    have htodo : ∀ b ∈ (getBookmarksByUri st uri).filter
        (movPredC3 c.startLine c.endLine (linesAddedOf c.text)),
        b ∈ getBookmarksByUri st uri ∧ c.endLine < b.line ∧
          0 ≤ b.line - (c.endLine - c.startLine) + linesAddedOf c.text := by
      intro b hb
      have h1 := List.mem_filter.mp hb
      have h2 := h1.2
      simp only [movPredC3, Bool.and_eq_true, decide_eq_true_eq] at h2
      exact ⟨h1.1, h2.1, h2.2⟩
    obtain ⟨finalRecs, hfb, hfp, hfl⟩ := update_fold_spec env st uri c.startLine c.endLine
      (linesAddedOf c.text) hse hla hnocol2 hcap
      ((getBookmarksByUri st uri).filter
        (movPredC3 c.startLine c.endLine (linesAddedOf c.text)))
      (removeFold st ((((getBookmarksByUri st uri).filter
        (remPredC3 c.startLine c.endLine (linesAddedOf c.text))).map (fun b => b.line)).map
          (fun l => ({ uri := uri, line := l } : PendingRemove)))) [] htodo
      (List.Pairwise.sublist (List.filter_sublist _) hdist)
      (fun nb hnb => absurd hnb (List.not_mem_nil nb))
      hperm hlenb hfr
    simp only [List.map_nil, List.nil_append] at hfl
    have hrun := updateBookmarks_single_eq env st uri c hemp
    have hR : (updateBookmarksForDocumentChanges env st uri [c]).1 =
        applyFold env (removeFold st ((((getBookmarksByUri st uri).filter
          (remPredC3 c.startLine c.endLine (linesAddedOf c.text))).map (fun b => b.line)).map
            (fun l => ({ uri := uri, line := l } : PendingRemove))))
          (((getBookmarksByUri st uri).filter
            (movPredC3 c.startLine c.endLine (linesAddedOf c.text))).map
            (pendingUpdateOf c.startLine c.endLine (linesAddedOf c.text))) := by
      rw [hrun, hcl, hmapeq]
    refine ⟨?_, ?_, ?_⟩
    · intro b hb hlt
      have hbu := ((mem_getBookmarksByUri st uri b).mp hb).2
      have hbmem : b ∈ st.bookmarks.filter (keepPredC3 uri c.startLine) :=
        List.mem_filter.mpr ⟨((mem_getBookmarksByUri st uri b).mp hb).1, by
          simp [keepPredC3, hbu]
          omega⟩
      rw [hR]
      exact hfb.mem_iff.mpr (List.mem_append.mpr (Or.inl hbmem))
    · intro b hb hge hmemres
      rw [hR] at hmemres
      rcases List.mem_append.mp (hfb.mem_iff.mp hmemres) with hk | hf
      · have h2 := (List.mem_filter.mp hk).2
        have hbu := ((mem_getBookmarksByUri st uri b).mp hb).2
        simp [keepPredC3, hbu] at h2
        omega
      · have h2 := (hfp b hf).2
        have h3 := hfresh b ((mem_getBookmarksByUri st uri b).mp hb).1
        omega
    · intro l
      rw [hR, hasBookmark_iff_exists]
      constructor
      · rintro ⟨b, hbmem, hbu, hbl⟩
        rcases List.mem_append.mp (hfb.mem_iff.mp hbmem) with hk | hf
        · have hkm := List.mem_filter.mp hk
          have hbF : b ∈ getBookmarksByUri st uri :=
            (mem_getBookmarksByUri st uri b).mpr ⟨hkm.1, hbu⟩
          have h2 := hkm.2
          simp [keepPredC3, hbu] at h2
          exact ⟨b, hbF, Or.inl ⟨by omega, hbl.symm⟩⟩
        · have hlm : b.line ∈ finalRecs.map (fun x => x.line) :=
            List.mem_map_of_mem _ hf
          obtain ⟨mv, hmv, hmvline⟩ := List.mem_map.mp (hfl.mem_iff.mp hlm)
          have hmvF := (List.mem_filter.mp hmv).1
          have hmvP := (List.mem_filter.mp hmv).2
          simp only [movPredC3, Bool.and_eq_true, decide_eq_true_eq] at hmvP
          refine ⟨mv, hmvF, Or.inr ⟨hmvP.1, by omega, by omega⟩⟩
      · rintro ⟨b, hbF, hcase⟩
        have hbu := ((mem_getBookmarksByUri st uri b).mp hbF).2
        rcases hcase with ⟨hlt, hleq⟩ | ⟨hgt, hpos, hleq⟩
        · have hbmem : b ∈ st.bookmarks.filter (keepPredC3 uri c.startLine) :=
            List.mem_filter.mpr ⟨((mem_getBookmarksByUri st uri b).mp hbF).1, by
              simp [keepPredC3, hbu]
              omega⟩
          exact ⟨b, hfb.mem_iff.mpr (List.mem_append.mpr (Or.inl hbmem)), hbu, hleq.symm⟩
        · have hbmov : b ∈ (getBookmarksByUri st uri).filter
              (movPredC3 c.startLine c.endLine (linesAddedOf c.text)) :=
            List.mem_filter.mpr ⟨hbF, by
              simp only [movPredC3, Bool.and_eq_true, decide_eq_true_eq]
              exact ⟨hgt, by omega⟩⟩
          have htl : b.line - (c.endLine - c.startLine) + linesAddedOf c.text ∈
              ((getBookmarksByUri st uri).filter
                (movPredC3 c.startLine c.endLine (linesAddedOf c.text))).map
                (fun x => x.line - (c.endLine - c.startLine) + linesAddedOf c.text) :=
            List.mem_map_of_mem _ hbmov
          obtain ⟨nb, hnbf, hnbl2⟩ := List.mem_map.mp (hfl.mem_iff.mpr htl)
          exact ⟨nb, hfb.mem_iff.mpr (List.mem_append.mpr (Or.inr hnbf)), (hfp nb hnbf).1,
            by omega⟩

/-- Witness for C3 on the specification example: deleting lines 8 to 12 of
a file with bookmarks at lines 5, 10 and 15 keeps the bookmark at 5,
removes the record at 10, and leaves a bookmark at line 11 = 15 - 4. -/
theorem C3_single_change_reconciliation_amended_witness :
    mkFileBookmark 0 5 0 0 ∈
      (updateBookmarksForDocumentChanges envStd c3State "f"
        [{ startLine := 8, endLine := 12, text := "" }]).1.bookmarks ∧
    (mkFileBookmark 1 10 10 1 ∉
      (updateBookmarksForDocumentChanges envStd c3State "f"
        [{ startLine := 8, endLine := 12, text := "" }]).1.bookmarks) ∧
    hasBookmark (updateBookmarksForDocumentChanges envStd c3State "f"
        [{ startLine := 8, endLine := 12, text := "" }]).1 "f" 11 = true := by
  have h := C3_single_change_reconciliation_amended envStd c3State "f"
    { startLine := 8, endLine := 12, text := "" }
    (by decide) (by decide) (by decide) (by decide) (by decide)
  refine ⟨?_, ?_, ?_⟩
  · exact h.1 (mkFileBookmark 0 5 0 0) (by decide) (by decide)
  · exact h.2.1 (mkFileBookmark 1 10 10 1) (by decide) (by decide)
  · exact (h.2.2 11).mpr ⟨mkFileBookmark 2 15 20 2, by decide, Or.inr (by decide)⟩

end LightBookmarks
